import Mathlib

/-!
Verification of the Notion2All synchronization/caching core.

This file gives a shallow embedding, in Lean 4, of the cache data model and the
synchronization pipeline of the repository:

* the cache service (src/packages/core/src/notion/services/cache.ts):
  cache map, load-time cleanup pass, record resolution, content hashing,
  the change detector shouldUpdate, checkChildrenUpdates, updateCache;
* the page coordinator (the coordinator variant that maintains cache records
  and handles flagged child updates): processPage, processUpdatedChildPages,
  processChildPages, batchProcessPages, processNestedChildPages,
  extractImageUrls, buildResourceMap;
* the batching schedule of the services coordinator variant;
* the page saver (services/saver.ts) path computation;
* the file downloader (services/file-downloader.ts) filename and path rules.

External collaborators (the remote API, the file system, the MD5 digest)
are modelled as oracles in an explicit environment record.  All asynchronous
code runs on a single-threaded event loop in the source; awaited sequences of
operations are embedded as sequential state-passing functions, and the
observable effects (network fetches, file writes, cache persists, resource
downloads) are recorded in an explicit event trace.
-/

namespace Notion2All

/-! ## Identifiers

formatId (src/packages/core/src/notion/utils.ts): an id that already contains
a hyphen is returned unchanged; otherwise the first 32 characters are split
8-4-4-4-12 with hyphens (the JS regex replaces only the first match and
leaves a shorter string unchanged). -/

def formatId (id : String) : String :=
  let cs := id.toList
  if cs.contains '-' then id
  else if cs.length < 32 then id
  else
    String.mk (cs.take 8 ++ '-' :: (cs.drop 8).take 4 ++ '-' :: (cs.drop 12).take 4
      ++ '-' :: (cs.drop 16).take 4 ++ '-' :: (cs.drop 20).take 12 ++ cs.drop 32)

/-! ## Cache data model (cache.ts)

PageCacheItem: { id?, last_edited_time, content_hash?, children }.
The persisted cache map is the `pages` record of the cache-map JSON file,
embedded as an insertion-ordered association list. -/

structure PageCacheItem where
  id : Option String
  last_edited_time : String
  content_hash : Option String
  children : List PageCacheItem

abbrev CacheMapL := List (String × PageCacheItem)

/-- Look up a top-level page record by key (JS object property access). -/
def lookupPage (m : CacheMapL) (k : String) : Option PageCacheItem :=
  match m with
  | [] => none
  | (k', it) :: rest => if k' = k then some it else lookupPage rest k

mutual
/-- collectChildPageIds (cache.ts), contribution of one item: its id field
plus the ids of its descendants. -/
def collectItemIds : PageCacheItem → List String
  | ⟨id, _, _, children⟩ =>
    (match id with | some i => [i] | none => []) ++ collectChildPageIds children
/-- collectChildPageIds (cache.ts): recursively collect the id fields of all
items of a children forest. -/
def collectChildPageIds : List PageCacheItem → List String
  | [] => []
  | c :: rest => collectItemIds c ++ collectChildPageIds rest
end

/-- All ids nested (at any depth) below some top-level entry of the map. -/
def nestedIds (m : CacheMapL) : List String :=
  match m with
  | [] => []
  | (_, it) :: rest => collectChildPageIds it.children ++ nestedIds rest

/-- cleanupDuplicatePages (cache.ts): collect every id reachable as a child
of some top-level entry, then delete each top-level entry whose key is such
a child id. -/
def cleanupDuplicatePages (m : CacheMapL) : CacheMapL :=
  let childIds := nestedIds m
  m.filter (fun e => decide (e.1 ∉ childIds))

/-- The "appears once" invariant, as a decidable check: no key of the map is
also reachable as a descendant in some top-level entry's children tree. -/
def noTopNestedDup (m : CacheMapL) : Bool :=
  m.all (fun e => decide (e.1 ∉ nestedIds m))

lemma nestedIds_filter_subset (p : String × PageCacheItem → Bool) (m : CacheMapL)
    {x : String} (hx : x ∈ nestedIds (m.filter p)) : x ∈ nestedIds m := by
  induction m with
  | nil => simp only [List.filter_nil] at hx; exact hx
  | cons e rest ih =>
    by_cases hp : p e
    · simp only [List.filter_cons, hp, if_true, nestedIds] at hx
      rw [List.mem_append] at hx
      rcases hx with h | h
      · exact List.mem_append.mpr (Or.inl h)
      · exact List.mem_append.mpr (Or.inr (ih h))
    · simp only [List.filter_cons, hp, Bool.false_eq_true, if_false] at hx
      exact List.mem_append.mpr (Or.inr (ih hx))

/-- C4: after the Cache Store's load-time cleanup pass, no id is present both
as a top-level entry of the cache map and as a descendant (at any depth) in
some top-level entry's children tree. -/
theorem cleanup_no_top_nested_dup (m : CacheMapL) :
    noTopNestedDup (cleanupDuplicatePages m) = true := by
  unfold noTopNestedDup cleanupDuplicatePages
  rw [List.all_eq_true]
  intro e he
  rw [List.mem_filter] at he
  obtain ⟨hmem, hkeep⟩ := he
  rw [decide_eq_true_iff] at hkeep ⊢
  intro hcontra
  exact hkeep (nestedIds_filter_subset _ m hcontra)

/-! ## Blocks and page snapshots

NotionBlock / PageObject from the repository's type declarations.  The
dynamic `properties` record and the title/icon/cover values are opaque to the
sync engine, so they are embedded as plain strings (respectively optional
strings); an image block's file/external url is embedded as an optional url
valid when the block type is "image". -/

structure NotionBlock where
  id : String
  type : String
  has_children : Bool
  last_edited_time : String
  url : Option String
  children : List NotionBlock

structure PageObject where
  id : String
  title : String
  icon : Option String
  cover : Option String
  properties : String
  last_edited_time : String
  children : List NotionBlock

/-- isChildPage (utils): a block is a child page iff its type is "child_page". -/
def isChildPage (b : NotionBlock) : Bool := b.type = "child_page"

/-! ## Content Hasher (cache.ts, calculateContentHash)

The source builds a canonical object from title, icon, cover, properties and,
per direct child block, only id + type + has_children, then digests its JSON
serialization with MD5.  JSON.stringify composed with MD5 is a fixed pure
function of the canonical object, embedded here as an opaque digest oracle
(carried by the environment) applied to the canonical value. -/

structure ChildKey where
  id : String
  type : String
  has_children : Bool

structure ContentObject where
  title : String
  icon : Option String
  cover : Option String
  properties : String
  children : List ChildKey

/-- The canonical value digested by calculateContentHash. -/
def contentObject (p : PageObject) : ContentObject :=
  { title := p.title
    icon := p.icon
    cover := p.cover
    properties := p.properties
    children := p.children.map (fun c =>
      { id := c.id, type := c.type, has_children := c.has_children }) }

/-- calculateContentHash, parametrized by the digest oracle
(MD5 of the JSON serialization in the source). -/
def calculateContentHash (digest : ContentObject → String) (p : PageObject) : String :=
  digest (contentObject p)

/-- C7: the content hash is a deterministic function of only the snapshot's
title, icon, cover, properties and, per direct child block, its id, type and
has_children flag; in particular two snapshots that agree on those
projections but differ in last_edited_time (or in nested child-block content
below the first level) always produce the identical digest. -/
theorem contentHash_depends_only_on_projection
    (digest : ContentObject → String) (p q : PageObject)
    (htitle : p.title = q.title) (hicon : p.icon = q.icon)
    (hcover : p.cover = q.cover) (hprops : p.properties = q.properties)
    (hchildren : p.children.map (fun c => (c.id, c.type, c.has_children))
      = q.children.map (fun c => (c.id, c.type, c.has_children))) :
    calculateContentHash digest p = calculateContentHash digest q := by
  unfold calculateContentHash contentObject
  congr 1
  simp only [htitle, hicon, hcover, hprops]
  congr 1
  have h : ∀ (xs ys : List NotionBlock),
      xs.map (fun c => (c.id, c.type, c.has_children))
        = ys.map (fun c => (c.id, c.type, c.has_children)) →
      xs.map (fun c => ChildKey.mk c.id c.type c.has_children)
        = ys.map (fun c => ChildKey.mk c.id c.type c.has_children) := by
    intro xs
    induction xs with
    | nil => intro ys hy; cases ys with
      | nil => rfl
      | cons y ys => simp at hy
    | cons x xs ih =>
      intro ys hy
      cases ys with
      | nil => simp at hy
      | cons y ys =>
        simp only [List.map_cons, List.cons.injEq, Prod.mk.injEq] at hy ⊢
        obtain ⟨⟨h1, h2, h3⟩, hrest⟩ := hy
        exact ⟨by rw [h1, h2, h3], ih ys hrest⟩
  exact h p.children q.children hchildren

/-- Witness for C7 at concrete snapshots differing only in last_edited_time
and in content below the first child level. -/
theorem contentHash_depends_only_on_projection_witness :
    calculateContentHash (fun c => c.title ++ c.properties)
      { id := "a-1", title := "T", icon := none, cover := none,
        properties := "P", last_edited_time := "t1",
        children := [{ id := "b-1", type := "paragraph", has_children := true,
                       last_edited_time := "t1", url := none,
                       children := [{ id := "c-1", type := "text", has_children := false,
                                      last_edited_time := "t1", url := none, children := [] }] }] }
    = calculateContentHash (fun c => c.title ++ c.properties)
      { id := "a-1", title := "T", icon := none, cover := none,
        properties := "P", last_edited_time := "t2",
        children := [{ id := "b-1", type := "paragraph", has_children := true,
                       last_edited_time := "t2", url := none, children := [] }] } :=
  contentHash_depends_only_on_projection (fun c => c.title ++ c.properties) _ _
    rfl rfl rfl rfl rfl

/-! ## Batched child dispatch (services/coordinator.ts, processPage step 6)

With no concurrency configured (undefined or non-positive), children are
awaited one at a time in list order.  Otherwise the loop
for i = 0; i < n; i += k dispatches childPages.slice(i, i + k) as one group
and awaits the whole group (Promise.all) before the next iteration, so the
run is a sequence of batches; at most one batch, hence at most k sibling
pipelines, is in flight at a time. -/

def chunkListAux (k : Nat) : List α → List (List α)
  | [] => []
  | x :: xs => (x :: xs).take (k + 1) :: chunkListAux k ((x :: xs).drop (k + 1))
termination_by l => l.length
decreasing_by simp only [List.length_drop, List.length_cons]; omega

/-- The batch schedule of the coordinator's child dispatch: each inner list
is one awaited group. -/
def childBatches (concurrency : Option Int) (children : List α) : List (List α) :=
  match concurrency with
  | none => children.map (fun c => [c])
  | some k => if k ≤ 0 then children.map (fun c => [c]) else chunkListAux (k.toNat - 1) children

lemma chunkListAux_flatten (k : Nat) (l : List α) : (chunkListAux k l).flatten = l := by
  induction l using chunkListAux.induct k with
  | case1 => simp [chunkListAux]
  | case2 x xs ih =>
    rw [chunkListAux]
    simp only [List.flatten_cons, ih, List.take_append_drop]

lemma chunkListAux_sizes (k : Nat) (l : List α) :
    ∀ b ∈ chunkListAux k l, b.length ≤ k + 1 := by
  induction l using chunkListAux.induct k with
  | case1 => simp [chunkListAux]
  | case2 x xs ih =>
    rw [chunkListAux]
    intro b hb
    rcases List.mem_cons.mp hb with h | h
    · subst h; exact List.length_take_le _ _
    · exact ih b h

lemma chunkListAux_count (k : Nat) (l : List α) :
    (chunkListAux k l).length = (l.length + k) / (k + 1) := by
  induction l using chunkListAux.induct k with
  | case1 =>
    rw [chunkListAux]
    simp only [List.length_nil, Nat.zero_add]
    exact (Nat.div_eq_of_lt (by omega)).symm
  | case2 x xs ih =>
    rw [chunkListAux]
    simp only [List.length_cons, ih, List.length_drop]
    rcases Nat.lt_or_ge (xs.length + 1) (k + 1) with h | h
    · rw [Nat.sub_eq_zero_of_le (by omega)]
      have h1 : (xs.length + 1 + k) / (k + 1) = 1 :=
        Nat.div_eq_of_lt_le (by omega) (by omega)
      have h0 : (0 + k) / (k + 1) = 0 := Nat.div_eq_of_lt (by omega)
      omega
    · have h2 : xs.length + 1 - (k + 1) + k + (k + 1) = xs.length + 1 + k := by omega
      have h3 : (xs.length + 1 - (k + 1) + k + (k + 1)) / (k + 1)
          = (xs.length + 1 - (k + 1) + k) / (k + 1) + 1 := Nat.add_div_right _ (by omega)
      rw [h2] at h3
      omega

/-- C5: for a concurrency limit k > 0, the children are partitioned into
ceil(N/k) consecutive groups of size at most k in list order (each group
awaited as a whole before the next starts, so at most k sibling pipelines
are in flight); for k unset or k ≤ 0 the children are scheduled strictly
serially, one singleton batch at a time, in list order. -/
theorem childBatches_spec (c : Option Int) (l : List String) :
    ((c = none ∨ ∃ k : Int, c = some k ∧ k ≤ 0) →
      childBatches c l = l.map (fun x => [x])) ∧
    (∀ k : Int, c = some k → 0 < k →
      (childBatches c l).flatten = l
        ∧ (∀ b ∈ childBatches c l, b.length ≤ k.toNat)
        ∧ (childBatches c l).length = (l.length + (k.toNat - 1)) / k.toNat) := by
  constructor
  · rintro (h | ⟨k, hk, hk0⟩)
    · rw [h]; rfl
    · rw [hk]; simp only [childBatches, if_pos hk0]
  · intro k hk hk0
    rw [hk]
    have hnot : ¬ k ≤ 0 := by omega
    have hto : k.toNat - 1 + 1 = k.toNat := by omega
    simp only [childBatches, if_neg hnot]
    refine ⟨chunkListAux_flatten _ l, ?_, ?_⟩
    · intro b hb
      have := chunkListAux_sizes (k.toNat - 1) l b hb
      omega
    · rw [chunkListAux_count, hto]

/-- Witness for C5 at a concrete child list and concurrency limit 2:
5 children make 3 batches of sizes 2,2,1, and with the limit unset the
schedule is serial. -/
theorem childBatches_spec_witness :
    (childBatches (some 2) ["a", "b", "c", "d", "e"]).flatten = ["a", "b", "c", "d", "e"]
      ∧ (childBatches (some 2) ["a", "b", "c", "d", "e"]).length = 3
      ∧ childBatches none ["a", "b"] = [["a"], ["b"]] := by
  refine ⟨((childBatches_spec (some 2) ["a", "b", "c", "d", "e"]).2 2 rfl (by decide)).1, ?_, ?_⟩
  · have h := ((childBatches_spec (some 2) ["a", "b", "c", "d", "e"]).2 2 rfl (by decide)).2.2
    rw [h]; decide
  · rw [(childBatches_spec none ["a", "b"]).1 (Or.inl rfl)]; decide

/-! ## Attachment Downloader (services/file-downloader.ts)

generateFileName: formats the block id, extracts the pathname of the URL
(new URL(url).pathname), takes its basename and extension (Node path.extname
semantics: the suffix starting at the last dot of the basename, empty for a
dotless or dot-leading basename), defaulting to ".png" when empty, and
concatenates formatId(blockId) with the extension.  saveFile places the file
at outputDir/formatId(pageId)/assets/<fileName>. -/

/-- The pathname component of an http(s) URL: everything from the first
slash after the scheme-and-host prefix, cut before any query or fragment
("/" when the URL has no path). -/
def urlPathname (url : String) : String :=
  let cs := url.toList
  let cs :=
    if cs.take 8 = "https://".toList then cs.drop 8
    else if cs.take 7 = "http://".toList then cs.drop 7
    else cs
  let path := cs.dropWhile (fun c => c != '/')
  let path := path.takeWhile (fun c => c != '?' && c != '#')
  if path.isEmpty then "/" else String.mk path

/-- path.basename: the part of the path after the last slash. -/
def basenameOf (p : String) : String :=
  String.mk ((p.toList.reverse.takeWhile (fun c => c != '/')).reverse)

/-- path.extname: the suffix beginning at the last dot of the basename,
empty when the basename has no dot or only a leading dot. -/
def extnameOf (name : String) : String :=
  let cs := name.toList
  let afterDot := cs.reverse.takeWhile (fun c => c != '.')
  if afterDot.length = cs.length then ""          -- no dot at all
  else if afterDot.length + 1 = cs.length then "" -- only a leading dot
  else String.mk ('.' :: afterDot.reverse)

/-- The extension the downloader reads off a URL. -/
def urlExtOf (url : String) : String := extnameOf (basenameOf (urlPathname url))

/-- generateFileName (file-downloader.ts). -/
def generateFileName (blockId url : String) : String :=
  formatId blockId ++ (if urlExtOf url = "" then ".png" else urlExtOf url)

/-- The path components at which saveFile stores a downloaded resource. -/
def saveFilePath (outputDir pageId blockId url : String) : List String :=
  [outputDir, formatId pageId, "assets", generateFileName blockId url]

/-- C10: the generated filename is formatId(blockId) concatenated with the
extension taken from the URL's path, defaulting to ".png" when the URL's
path has no extension, and the file is always placed under the owning
page's assets directory (outputDir/formatId(pageId)/assets). -/
theorem downloader_filename_spec (outputDir pageId blockId url : String) :
    (urlExtOf url = "" → generateFileName blockId url = formatId blockId ++ ".png")
      ∧ (∀ e, urlExtOf url = e → e ≠ "" →
          generateFileName blockId url = formatId blockId ++ e)
      ∧ saveFilePath outputDir pageId blockId url
          = [outputDir, formatId pageId, "assets", generateFileName blockId url] := by
  refine ⟨?_, ?_, rfl⟩
  · intro h
    unfold generateFileName
    rw [h, if_pos rfl]
  · intro e he hne
    unfold generateFileName
    rw [he, if_neg hne]

/-- Witness for C10: a URL whose path ends in ".jpg" keeps that extension
and a URL with an extensionless path defaults to ".png". -/
theorem downloader_filename_spec_witness :
    generateFileName "b-1" "https://files.example.com/img/photo.jpg?sig=1"
        = "b-1" ++ ".jpg"
      ∧ generateFileName "b-1" "https://files.example.com/img/photo" = "b-1" ++ ".png"
      ∧ saveFilePath "out" "p-1" "b-1" "https://files.example.com/img/photo.jpg?sig=1"
        = ["out", "p-1", "assets", "b-1.jpg"] := by
  refine ⟨?_, ?_, ?_⟩
  · have h := (downloader_filename_spec "out" "p-1" "b-1"
      "https://files.example.com/img/photo.jpg?sig=1").2.1 ".jpg" (by decide) (by decide)
    rw [h]; decide
  · have h := (downloader_filename_spec "out" "p-1" "b-1"
      "https://files.example.com/img/photo").1 (by decide)
    rw [h]; decide
  · have h := (downloader_filename_spec "out" "p-1" "b-1"
      "https://files.example.com/img/photo.jpg?sig=1").2.2
    rw [h]; decide

/-! ## Environment, state and observable events

The remote API, the snapshot files on disk and the digest are oracles.
Effects are recorded as events: metadata fetches, full-content fetches,
local snapshot reads, page-file writes, cache-record persists and resource
downloads.  Event ids are the page/block ids the respective call was made
with. -/

inductive Ev where
  | recurse (id : String)
  | metaFetch (id : String)
  | fullFetch (id : String)
  | cacheRead (id : String)
  | savePage (id : String) (ok : Bool)
  | cacheSave (id : String)
  | download (pageId : String) (blockId : String)
  | dispatchFlagged (id : String) (childIds : List String)
deriving DecidableEq

/-- The id a trace event concerns (a download concerns the requesting page). -/
def Ev.evId : Ev → String
  | .recurse i => i
  | .metaFetch i => i
  | .fullFetch i => i
  | .cacheRead i => i
  | .savePage i _ => i
  | .cacheSave i => i
  | .download p _ => p
  | .dispatchFlagged i _ => i

structure Env where
  /-- fetchPageData: the remote last_edited_time of a page (or a thrown error). -/
  meta : String → Except String String
  /-- fetchFullPageData: the remote full content tree of a page. -/
  full : String → Except String PageObject
  /-- getCachedData: the locally cached snapshot stored at a path of
  formatted ids (null on any read failure). -/
  cached : List String → Option PageObject
  /-- Whether the file-system write of savePageData at a path succeeds. -/
  saveOk : List String → Bool
  /-- MD5 of the JSON serialization of the canonical content value. -/
  digest : ContentObject → String

/-- The run state: the persisted cache map (none when the file is
unreadable/corrupt), the in-memory cache map, the run-scoped PendingSet,
the UpdatedChildrenIndex and the resource-ownership map. -/
structure SyncSt where
  disk : Option CacheMapL
  mem : CacheMapL
  pending : List String
  flags : List (String × List String)
  resourceMap : List (String × String)

/-- Association-map read (JS Map.get). -/
def alookup (m : List (String × α)) (k : String) : Option α :=
  match m with
  | [] => none
  | (k', v) :: rest => if k' = k then some v else alookup rest k

/-- Association-map write (JS Map.set: overwrite or append). -/
def aset (m : List (String × α)) (k : String) (v : α) : List (String × α) :=
  match m with
  | [] => [(k, v)]
  | (k', v') :: rest => if k' = k then (k, v) :: rest else (k', v') :: aset rest k v

/-- Association-map delete (JS Map.delete). -/
def adel (m : List (String × α)) (k : String) : List (String × α) :=
  m.filter (fun e => decide (e.1 ≠ k))

/-- Legacy migration on load: give every top-level record its key as id when
the id field is missing. -/
def fillIds (m : CacheMapL) : CacheMapL :=
  m.map (fun e => if e.2.id = none then (e.1, { e.2 with id := some e.1 }) else e)

/-- initCacheMap before a check: re-read the persisted map, migrate it and
run the cleanup pass; an unreadable/corrupt file leaves the in-memory map
unchanged (initially empty, i.e. treated as absent). -/
def loadMem (st : SyncSt) : CacheMapL :=
  match st.disk with
  | some m => cleanupDuplicatePages (fillIds m)
  | none => st.mem

def addPending (p : String) (st : SyncSt) : SyncSt :=
  { st with pending := if p ∈ st.pending then st.pending else st.pending ++ [p] }

/-- getUpdatedChildPages (cache.ts). -/
def getUpdatedChildPages (st : SyncSt) (pageId : String) : List String :=
  (alookup st.flags (formatId pageId)).getD []

/-- clearUpdatedChildPages (cache.ts). -/
def clearUpdatedChildPages (pageId : String) (st : SyncSt) : SyncSt :=
  { st with flags := adel st.flags (formatId pageId) }

mutual
/-- One step of findChildPageById: the record itself when its id matches,
otherwise the first match in its subtree. -/
def findInItem (c : PageCacheItem) (i : String) : Option PageCacheItem :=
  match c with
  | ⟨id, ts, h, children⟩ =>
    if id = some i then some ⟨id, ts, h, children⟩ else findChildPageById children i
/-- findChildPageById (cache.ts): depth-first search of a children forest
for the first record whose id field matches. -/
def findChildPageById : List PageCacheItem → String → Option PageCacheItem
  | [], _ => none
  | c :: rest, i =>
    match findInItem c i with
    | some f => some f
    | none => findChildPageById rest i
end

/-- The walk of findChildInParentChain below the top-level entry: resolve
each further ancestor by deep search of the current record's children, then
deep-search the final ancestor's children for the target. -/
def findChainFrom (page : PageCacheItem) : List String → String → Option PageCacheItem
  | [], childId => findChildPageById page.children childId
  | nxt :: rest, childId =>
    match findChildPageById page.children (formatId nxt) with
    | none => none
    | some nextPage => findChainFrom nextPage rest childId

/-- findChildInParentChain (cache.ts). -/
def findChildInParentChain (m : CacheMapL) (childId : String) (parents : List String) :
    Option PageCacheItem :=
  match parents with
  | [] => none
  | p0 :: rest =>
    match lookupPage m (formatId p0) with
    | none => none
    | some page => findChainFrom page rest childId

/-- The result of checkChildrenUpdates: the updated direct-child ids, the
UpdatedChildrenIndex entries written for nested updates, and the trace of
child metadata fetches. -/
structure CheckOut where
  upd : List String
  sets : List (String × List String)
  tr : List Ev

mutual
/-- checkChildrenUpdates (cache.ts), the body for one cached child: fetch
its remote metadata (an error is caught and counts as needing update),
compare timestamps, recurse into the cached grandchildren, and record
nested updates in the UpdatedChildrenIndex under the child's id. -/
def checkChildOne (env : Env) : PageCacheItem → CheckOut
  | ⟨id, lastEdited, _, children⟩ =>
    match id with
    | none => ⟨[], [], []⟩
    | some cid =>
      match env.meta cid with
      | .error _ => ⟨[cid], [], [.metaFetch cid]⟩
      | .ok ts =>
        let nested := checkChildrenUpdates env children
        ⟨if ts ≠ lastEdited ∨ nested.upd ≠ [] then [cid] else [],
         nested.sets ++ (if nested.upd ≠ [] then [(cid, nested.upd)] else []),
         .metaFetch cid :: nested.tr⟩
/-- checkChildrenUpdates (cache.ts): the children are checked in order and
their contributions concatenated. -/
def checkChildrenUpdates (env : Env) : List PageCacheItem → CheckOut
  | [] => ⟨[], [], []⟩
  | c :: rest =>
    let one := checkChildOne env c
    let restOut := checkChildrenUpdates env rest
    ⟨one.upd ++ restOut.upd, one.sets ++ restOut.sets, one.tr ++ restOut.tr⟩
end

/-- Apply a list of UpdatedChildrenIndex writes in order. -/
def applyFlagSets (sets : List (String × List String)) (st : SyncSt) : SyncSt :=
  match sets with
  | [] => st
  | (k, v) :: rest => applyFlagSets rest { st with flags := aset st.flags k v }

/-- Result of the change detector. -/
structure SUOut where
  needs : Bool
  st : SyncSt
  tr : List Ev

/-- shouldUpdate (cache.ts): reload the cache map; short-circuit on the
PendingSet; resolve the record (deep chain walk for a non-top-level node,
top-level lookup otherwise); timestamp comparison; on a timestamp change
with a stored content hash, compare against a hash recomputed from the
locally cached snapshot; for a top-level node with unchanged content run
checkChildrenUpdates and record flagged descendants; otherwise mark pending
and request a full update.  Any error path is caught and the node falls
back to "needs update" - the function is total. -/
def shouldUpdateF (env : Env) (st0 : SyncSt) (pageId lastEditedTime : String)
    (parents : List String) : SUOut :=
  let st := { st0 with mem := loadMem st0 }
  let p := formatId pageId
  if p ∈ st.pending then ⟨true, st, []⟩
  else if parents ≠ [] then
    match findChildInParentChain st.mem p parents with
    | some childInfo =>
      if childInfo.last_edited_time = lastEditedTime then ⟨false, st, []⟩
      else
        match childInfo.content_hash with
        | some h =>
          match env.cached (parents.map formatId ++ [p]) with
          | some d =>
            if calculateContentHash env.digest d = h then ⟨false, st, [.cacheRead pageId]⟩
            else ⟨true, addPending p st, [.cacheRead pageId]⟩
          | none => ⟨true, addPending p st, [.cacheRead pageId]⟩
        | none => ⟨true, addPending p st, []⟩
    | none => ⟨true, addPending p st, []⟩
  else
    match lookupPage st.mem p with
    | some item =>
      if item.last_edited_time = lastEditedTime then
        let c := checkChildrenUpdates env item.children
        let st := applyFlagSets c.sets st
        if c.upd ≠ [] then ⟨false, { st with flags := aset st.flags p c.upd }, c.tr⟩
        else ⟨false, st, c.tr⟩
      else
        match item.content_hash with
        | some h =>
          match env.cached [p] with
          | some d =>
            if calculateContentHash env.digest d = h then
              let c := checkChildrenUpdates env item.children
              let st := applyFlagSets c.sets st
              if c.upd ≠ [] then
                ⟨false, { st with flags := aset st.flags p c.upd }, .cacheRead pageId :: c.tr⟩
              else ⟨false, st, .cacheRead pageId :: c.tr⟩
            else ⟨true, addPending p st, [.cacheRead pageId]⟩
          | none => ⟨true, addPending p st, [.cacheRead pageId]⟩
        | none => ⟨true, addPending p st, []⟩
    | none => ⟨true, addPending p st, []⟩

/-- Final step of updateChildInParentChain: update or append the target
child among the last ancestor's direct children (the hash is written only
when present, matching the truthiness guard in the source). -/
def updChildFinal (cs : List PageCacheItem) (childId ts : String) (h : Option String) :
    List PageCacheItem :=
  match cs with
  | [] => [⟨some childId, ts, h, []⟩]
  | c :: rest =>
    if c.id = some childId then
      { c with last_edited_time := ts,
               content_hash := match h with | some v => some v | none => c.content_hash } :: rest
    else c :: updChildFinal rest childId ts h

/-- Whether a forest has a direct child with the given id. -/
def hasDirect (cs : List PageCacheItem) (n : String) : Bool :=
  match cs with
  | [] => false
  | c :: rest => c.id = some n || hasDirect rest n

/-- The children of the first direct child with the given id. -/
def childrenOfFirst (cs : List PageCacheItem) (n : String) : List PageCacheItem :=
  match cs with
  | [] => []
  | c :: rest => if c.id = some n then c.children else childrenOfFirst rest n

/-- Replace the children of the first direct child with the given id. -/
def replaceFirstChildren (cs : List PageCacheItem) (n : String)
    (newCh : List PageCacheItem) : List PageCacheItem :=
  match cs with
  | [] => []
  | c :: rest =>
    if c.id = some n then { c with children := newCh } :: rest
    else c :: replaceFirstChildren rest n newCh

/-- Walk of updateChildInParentChain below the top-level entry: find each
next ancestor among the current direct children (first match), appending a
fresh empty record when absent, then descend into its children. -/
def updChainChildren (childId ts : String) (h : Option String) :
    List String → List PageCacheItem → List PageCacheItem
  | [], cs => updChildFinal cs childId ts h
  | nxt :: rest, cs =>
    let n := formatId nxt
    if hasDirect cs n then
      replaceFirstChildren cs n (updChainChildren childId ts h rest (childrenOfFirst cs n))
    else cs ++ [⟨some n, "", none, updChainChildren childId ts h rest []⟩]

/-- Modify the top-level record stored under a key. -/
def modifyPage (m : CacheMapL) (k : String) (f : PageCacheItem → PageCacheItem) : CacheMapL :=
  m.map (fun e => if e.1 = k then (e.1, f e.2) else e)

/-- updateChildInParentChain (cache.ts). -/
def updateChildInParentChain (m : CacheMapL) (childId ts : String) (parents : List String)
    (h : Option String) : CacheMapL :=
  match parents with
  | [] => m
  | p0 :: rest =>
    let top := formatId p0
    let m' := if (lookupPage m top).isSome then m else m ++ [(top, ⟨some top, "", none, []⟩)]
    modifyPage m' top (fun pg => { pg with children := updChainChildren childId ts h rest pg.children })

/-- updateCache (cache.ts): compute the content hash, write the record (at
the chain for a nested node, at the top level otherwise), drop the id from
the PendingSet and persist the map. -/
def updateCacheF (env : Env) (st : SyncSt) (pageId : String) (data : PageObject)
    (parents : List String) : SyncSt × List Ev :=
  let p := formatId pageId
  let h := calculateContentHash env.digest data
  let mem :=
    if parents ≠ [] then updateChildInParentChain st.mem p data.last_edited_time parents (some h)
    else
      match lookupPage st.mem p with
      | none => st.mem ++ [(p, ⟨some p, data.last_edited_time, some h, []⟩)]
      | some _ =>
        modifyPage st.mem p
          (fun it => { it with last_edited_time := data.last_edited_time, content_hash := some h })
  ({ st with mem := mem, disk := some mem,
             pending := st.pending.filter (fun x => decide (x ≠ p)) },
   [.cacheSave pageId])

/-! ## Sync Coordinator (the coordinator with cache-record handling)

processPage and its helpers.  The single-threaded event loop interleaves
awaited tasks; batches dispatched with Promise.all are embedded as the
sequential execution of their tasks in list order (the canonical
determinization of the cooperative schedule), stopping at the first error,
which the source rethrows through the batch join. -/

structure Cfg where
  recursive : Bool
  includeImages : Bool
  enableCache : Bool

/-- Coordinator config of processChildPages/batchProcessPages: the path
components identifying a page file: formatted ancestor chain plus the
formatted page id. -/
def pagePath (parents : List String) (pageId : String) : List String :=
  parents.map formatId ++ [formatId pageId]

mutual
/-- extractImageUrls (coordinator), the body for one block: skip child page
blocks and their subtrees entirely; for an image block with a url, record
first-seen ownership in the resource map, and in extraction mode return the
image when the current page owns it; then recurse into the children. -/
def extractImageOne : NotionBlock → String → Bool → List (String × String) →
    (List (String × String)) × List (String × String)
  | ⟨bid, btype, _, _, burl, bchildren⟩, pageId, recordOnly, rm =>
    if btype = "child_page" then ([], rm)
    else
      let step : (List (String × String)) × List (String × String) :=
        if btype = "image" then
          match burl with
          | some u =>
            let rm1 := if (alookup rm bid).isSome then rm else aset rm bid pageId
            if ¬ recordOnly ∧ alookup rm1 bid = some pageId then ([(bid, u)], rm1)
            else ([], rm1)
          | none => ([], rm)
        else ([], rm)
      let ci := extractImageUrlsF bchildren pageId recordOnly step.2
      (step.1 ++ ci.1, ci.2)
/-- extractImageUrls (coordinator) over a block forest, in order. -/
def extractImageUrlsF : List NotionBlock → String → Bool → List (String × String) →
    (List (String × String)) × List (String × String)
  | [], _, _, rm => ([], rm)
  | b :: rest, pageId, recordOnly, rm =>
    let one := extractImageOne b pageId recordOnly rm
    let ri := extractImageUrlsF rest pageId recordOnly one.2
    (one.1 ++ ri.1, ri.2)
end

/-- Result of the resource-ownership pre-pass. -/
structure ROut where
  res : Except String Unit
  rm : List (String × String)
  tr : List Ev

/-- The child-page loop of buildResourceMap, parametrized by the recursive
call (fetch each direct child page in order and recurse; fetch errors
propagate). -/
def buildResLoop (recurse : List (String × String) → String → PageObject → ROut) (env : Env) :
    List (String × String) → List NotionBlock → ROut
  | rm, [] => ⟨.ok (), rm, []⟩
  | rm, cp :: rest =>
    match env.full cp.id with
    | .error e => ⟨.error e, rm, [.fullFetch cp.id]⟩
    | .ok cd =>
      let r := recurse rm cp.id cd
      match r.res with
      | .error e => ⟨.error e, r.rm, .fullFetch cp.id :: r.tr⟩
      | .ok _ =>
        let r2 := buildResLoop recurse env r.rm rest
        ⟨r2.res, r2.rm, .fullFetch cp.id :: (r.tr ++ r2.tr)⟩

/-- buildResourceMap (coordinator): record the current page's resources,
then recursively pre-process the direct child pages (fetching each child's
full content). -/
def buildResourceMapF : Nat → Env → List (String × String) → String → PageObject → ROut
  | 0, _, rm, _, _ => ⟨.error "out of fuel", rm, []⟩
  | n + 1, env, rm, pageId, data =>
    let rm1 := (extractImageUrlsF data.children pageId true rm).2
    buildResLoop (buildResourceMapF n env) env rm1 (data.children.filter isChildPage)

mutual
/-- Child-page block ids at any depth below one block (the block itself
included when it is a child page). -/
def deepChildPageIdsOne : NotionBlock → List String
  | ⟨bid, btype, _, _, _, bchildren⟩ =>
    (if btype = "child_page" then [bid] else []) ++ deepChildPageIds bchildren
/-- All child-page block ids at any depth of a block forest. -/
def deepChildPageIds : List NotionBlock → List String
  | [] => []
  | b :: rest => deepChildPageIdsOne b ++ deepChildPageIds rest
end

/-- The child pages processChildPages collects: direct child-page blocks and
child-page blocks one level inside a block with children. -/
def collectChildPages : List NotionBlock → List String
  | [] => []
  | b :: rest =>
    (if isChildPage b ∧ b.id ≠ "" then [b.id]
     else if b.has_children then
       ((b.children.filter (fun s => isChildPage s && decide (s.id ≠ ""))).map (fun s => s.id))
     else []) ++ collectChildPages rest

/-- Result of one coordinator invocation. -/
structure POut where
  res : Except String Unit
  st : SyncSt
  tr : List Ev

/-- The recursive-call oracle passed to the helpers of processPage. -/
abbrev GoFn := SyncSt → String → List String → Bool → POut

/-- Sequential processing of pages under one parent chain, stopping at the
first failure (which the source rethrows through the awaited batch). -/
def runSeq (go : GoFn) (parents : List String) : SyncSt → List String → POut
  | st, [] => ⟨.ok (), st, []⟩
  | st, pid :: rest =>
    let r := go st pid parents false
    match r.res with
    | .error e => ⟨.error e, r.st, r.tr⟩
    | .ok _ =>
      let r2 := runSeq go parents r.st rest
      ⟨r2.res, r2.st, r.tr ++ r2.tr⟩

/-- processUpdatedChildPages (coordinator): process each flagged child id
under the extended parent chain, in order. -/
def processUpdatedChildPagesF (go : GoFn) (st : SyncSt) (pageId : String)
    (parents : List String) (updIds : List String) : POut :=
  if updIds = [] then ⟨.ok (), st, []⟩
  else runSeq go (parents ++ [pageId]) st updIds

/-- Step 1 of batchProcessPages: fetch each page's metadata; a fetch error
is caught and the page dropped from the info list. -/
def fetchInfos (env : Env) : List String → (List (String × String)) × List Ev
  | [] => ([], [])
  | pid :: rest =>
    let r := fetchInfos env rest
    match env.meta pid with
    | .ok ts => ((pid, ts) :: r.1, .metaFetch pid :: r.2)
    | .error _ => (r.1, .metaFetch pid :: r.2)

/-- batchShouldUpdate (cache.ts): run shouldUpdate for each page info and
collect the ids needing update. -/
def batchShouldUpdateF (env : Env) (parents : List String) :
    SyncSt → List (String × String) → (List String) × SyncSt × List Ev
  | st, [] => ([], st, [])
  | st, (pid, ts) :: rest =>
    let r := shouldUpdateF env st pid ts parents
    let r2 := batchShouldUpdateF env parents r.st rest
    ((if r.needs then [pid] else []) ++ r2.1, r2.2.1, r.tr ++ r2.2.2)

/-- batchProcessPages (coordinator): fetch infos, batch-check the cache,
then process the pages needing update (groups of three awaited in order,
embedded sequentially). -/
def batchProcessPagesF (go : GoFn) (env : Env) (cfg : Cfg) (st : SyncSt)
    (ids : List String) (parents : List String) : POut :=
  if ids = [] then ⟨.ok (), st, []⟩
  else
    let fi := fetchInfos env ids
    let step2 : (List String) × SyncSt × List Ev :=
      if cfg.enableCache ∧ fi.1 ≠ [] then
        batchShouldUpdateF env parents { st with mem := loadMem st } fi.1
      else (ids, st, [])
    let r := runSeq go parents step2.2.1 step2.1
    ⟨r.res, r.st, fi.2 ++ step2.2.2 ++ r.tr⟩

mutual
/-- processNestedChildPages (coordinator), the body for one block: skip
child-page blocks; process the child pages found one level inside the
block, then recurse deeper, under the unchanged ancestor chain. -/
def processNestedOne (go : GoFn) (parentId : String) (ancestors : List String)
    (st : SyncSt) : NotionBlock → POut
  | ⟨_, btype, _, _, _, bchildren⟩ =>
    if btype = "child_page" then ⟨.ok (), st, []⟩
    else
      let nestedPages := (bchildren.filter (fun c => isChildPage c)).map (fun c => c.id)
      let r1 := runSeq go (ancestors ++ [parentId]) st nestedPages
      match r1.res with
      | .error e => ⟨.error e, r1.st, r1.tr⟩
      | .ok _ =>
        let r2 := processNestedChildPagesF go parentId ancestors r1.st bchildren
        ⟨r2.res, r2.st, r1.tr ++ r2.tr⟩
/-- processNestedChildPages (coordinator) over a block forest, in order,
stopping at the first failure. -/
def processNestedChildPagesF (go : GoFn) (parentId : String) (ancestors : List String) :
    SyncSt → List NotionBlock → POut
  | st, [] => ⟨.ok (), st, []⟩
  | st, b :: rest =>
    let r1 := processNestedOne go parentId ancestors st b
    match r1.res with
    | .error e => ⟨.error e, r1.st, r1.tr⟩
    | .ok _ =>
      let r2 := processNestedChildPagesF go parentId ancestors r1.st rest
      ⟨r2.res, r2.st, r1.tr ++ r2.tr⟩
end

/-- processChildPages (coordinator): collect direct and one-level-nested
child pages, batch-process them under the extended chain, then handle the
remaining nested child pages. -/
def processChildPagesF (go : GoFn) (env : Env) (cfg : Cfg) (st : SyncSt)
    (data : PageObject) (parentId : String) (parents : List String) : POut :=
  let childIds := collectChildPages data.children
  if childIds = [] then processNestedChildPagesF go parentId parents st data.children
  else
    let r := batchProcessPagesF go env cfg st childIds (parents ++ [parentId])
    match r.res with
    | .error _ => r
    | .ok _ =>
      let r2 := processNestedChildPagesF go parentId parents r.st data.children
      ⟨r2.res, r2.st, r.tr ++ r2.tr⟩

/-- The full-update path of processPage (steps 3 to 7): fetch the complete
content, run the root resource pre-pass, persist (abort on failure), update
the cache record, extract and download owned resources, then dispatch child
pages. -/
def fullPathF (buildRes : List (String × String) → String → PageObject → ROut) (go : GoFn)
    (env : Env) (cfg : Cfg) (st : SyncSt) (pageId : String) (parents : List String)
    (isRoot : Bool) (trPre : List Ev) : POut :=
  match env.full pageId with
  | .error e => ⟨.error e, st, trPre ++ [.fullFetch pageId]⟩
  | .ok fd =>
    let tr1 := trPre ++ [.fullFetch pageId]
    let pre : ROut :=
      if isRoot ∧ cfg.includeImages then buildRes st.resourceMap pageId fd
      else ⟨.ok (), st.resourceMap, []⟩
    match pre.res with
    | .error e => ⟨.error e, { st with resourceMap := pre.rm }, tr1 ++ pre.tr⟩
    | .ok _ =>
      let st2 := { st with resourceMap := pre.rm }
      let tr2 := tr1 ++ pre.tr
      let ok := env.saveOk (pagePath parents pageId)
      let tr3 := tr2 ++ [.savePage pageId ok]
      if ok = false then ⟨.error "save failed", st2, tr3⟩
      else
        let cacheStep : SyncSt × List Ev :=
          if cfg.enableCache then updateCacheF env st2 pageId fd parents else (st2, [])
        let dlStep : SyncSt × List Ev :=
          if cfg.includeImages then
            let ex := extractImageUrlsF fd.children pageId false cacheStep.1.resourceMap
            ({ cacheStep.1 with resourceMap := ex.2 },
             ex.1.map (fun i => Ev.download pageId i.1))
          else (cacheStep.1, [])
        if cfg.recursive then
          let r := processChildPagesF go env cfg dlStep.1 fd pageId parents
          ⟨r.res, r.st, tr3 ++ cacheStep.2 ++ dlStep.2 ++ r.tr⟩
        else ⟨.ok (), dlStep.1, tr3 ++ cacheStep.2 ++ dlStep.2⟩

/-- One unfolding of processPage (coordinator): metadata fetch, cache check,
cache-hit return, flagged-children handling (with fallback to a full update
when the cached snapshot is unreadable), or the full-update path. -/
def processStep (buildRes : List (String × String) → String → PageObject → ROut) (go : GoFn)
    (env : Env) (cfg : Cfg) (st : SyncSt) (pageId : String) (parents : List String)
    (isRoot : Bool) : POut :=
  let tr0 : List Ev := [.recurse pageId, .metaFetch pageId]
  match env.meta pageId with
  | .error e => ⟨.error e, st, tr0⟩
  | .ok ts =>
    let su : SUOut :=
      if cfg.enableCache then shouldUpdateF env st pageId ts parents
      else ⟨true, st, []⟩
    let tr1 := tr0 ++ su.tr
    let updIds := if su.needs then [] else getUpdatedChildPages su.st pageId
    if su.needs = false ∧ updIds = [] then ⟨.ok (), su.st, tr1⟩
    else if su.needs = false then
      match env.cached (pagePath parents pageId) with
      | some _ =>
        let r := processUpdatedChildPagesF go su.st pageId parents updIds
        match r.res with
        | .ok _ =>
          ⟨.ok (), clearUpdatedChildPages pageId r.st,
           tr1 ++ .cacheRead pageId :: .dispatchFlagged pageId updIds :: r.tr⟩
        | .error e =>
          ⟨.error e, r.st,
           tr1 ++ .cacheRead pageId :: .dispatchFlagged pageId updIds :: r.tr⟩
      | none =>
        fullPathF buildRes go env cfg su.st pageId parents isRoot (tr1 ++ [.cacheRead pageId])
    else fullPathF buildRes go env cfg su.st pageId parents isRoot tr1

/-- processPage (coordinator), with explicit fuel for the recursion over the
remote tree. -/
def processPageF : Nat → Env → Cfg → SyncSt → String → List String → Bool → POut
  | 0, _, _, st, _, _, _ => ⟨.error "out of fuel", st, []⟩
  | n + 1, env, cfg, st, pageId, parents, isRoot =>
    processStep (buildResourceMapF n env)
      (fun st' pid par rt => processPageF n env cfg st' pid par rt)
      env cfg st pageId parents isRoot

/-! ## Branch lemmas for the change detector -/

/-- The record resolution shouldUpdate performs: top-level lookup for a
root node, deep chain walk otherwise. -/
def resolvedRecord (m : CacheMapL) (pageId : String) (parents : List String) :
    Option PageCacheItem :=
  match parents with
  | [] => lookupPage m (formatId pageId)
  | _ :: _ => findChildInParentChain m (formatId pageId) parents

lemma checkChildren_tr_meta (env : Env) (cs : List PageCacheItem) :
    ∀ e ∈ (checkChildrenUpdates env cs).tr, ∃ i, e = Ev.metaFetch i := by
  refine checkChildrenUpdates.induct env
    (fun c => ∀ e ∈ (checkChildOne env c).tr, ∃ i, e = Ev.metaFetch i)
    (fun l => ∀ e ∈ (checkChildrenUpdates env l).tr, ∃ i, e = Ev.metaFetch i)
    ?_ ?_ ?_ ?_ ?_ cs
  · intro le h ch e he
    simp [checkChildOne] at he
  · intro le h ch cid a herr e he
    simp only [checkChildOne, herr] at he
    rcases List.mem_singleton.mp he with h'
    exact ⟨cid, h'⟩
  · intro le h ch cid ts hok ih e he
    simp only [checkChildOne, hok] at he
    rcases List.mem_cons.mp he with h' | h'
    · exact ⟨cid, h'⟩
    · exact ih e h'
  · intro e he
    simp [checkChildrenUpdates] at he
  · intro c rest ih1 ih2 e he
    simp only [checkChildrenUpdates] at he
    rcases List.mem_append.mp he with h' | h'
    · exact ih1 e h'
    · exact ih2 e h'

lemma checkChildren_upd_nil_sets (env : Env) (cs : List PageCacheItem) :
    (checkChildrenUpdates env cs).upd = [] → (checkChildrenUpdates env cs).sets = [] := by
  refine checkChildrenUpdates.induct env
    (fun c => (checkChildOne env c).upd = [] → (checkChildOne env c).sets = [])
    (fun l => (checkChildrenUpdates env l).upd = [] → (checkChildrenUpdates env l).sets = [])
    ?_ ?_ ?_ ?_ ?_ cs
  · intro le h ch _
    simp [checkChildOne]
  · intro le h ch cid a herr hu
    simp only [checkChildOne, herr] at hu
    exact absurd hu (List.cons_ne_nil _ _)
  · intro le h ch cid ts hok ih hu
    simp only [checkChildOne, hok] at hu ⊢
    have hif : ¬ (ts ≠ le ∨ (checkChildrenUpdates env ch).upd ≠ []) := by
      intro hcon
      rw [if_pos hcon] at hu
      exact List.cons_ne_nil _ _ hu
    push_neg at hif
    rw [ih hif.2, if_neg (by simp [hif.2])]
    simp
  · intro _
    rw [checkChildrenUpdates]
  · intro c rest ih1 ih2 hu
    simp only [checkChildrenUpdates] at hu ⊢
    rcases List.append_eq_nil.mp hu with ⟨h1, h2⟩
    rw [ih1 h1, ih2 h2]
    simp
lemma shouldUpdateF_child_ts_hit (env : Env) (st : SyncSt) (pageId ts : String)
    (parents : List String) (item : PageCacheItem)
    (hpar : parents ≠ [])
    (hpend : formatId pageId ∉ st.pending)
    (hfind : findChildInParentChain (loadMem st) (formatId pageId) parents = some item)
    (hts : item.last_edited_time = ts) :
    shouldUpdateF env st pageId ts parents = ⟨false, { st with mem := loadMem st }, []⟩ := by
  unfold shouldUpdateF
  simp only [hfind, if_neg (by simpa using hpend), if_pos hpar, if_pos hts]

lemma shouldUpdateF_top_ts_hit (env : Env) (st : SyncSt) (pageId ts : String)
    (item : PageCacheItem)
    (hpend : formatId pageId ∉ st.pending)
    (hlook : lookupPage (loadMem st) (formatId pageId) = some item)
    (hts : item.last_edited_time = ts) :
    shouldUpdateF env st pageId ts [] =
      (if (checkChildrenUpdates env item.children).upd ≠ [] then
        ⟨false,
         { applyFlagSets (checkChildrenUpdates env item.children).sets { st with mem := loadMem st } with
             flags := aset (applyFlagSets (checkChildrenUpdates env item.children).sets
               { st with mem := loadMem st }).flags (formatId pageId)
               (checkChildrenUpdates env item.children).upd },
         (checkChildrenUpdates env item.children).tr⟩
      else
        ⟨false, applyFlagSets (checkChildrenUpdates env item.children).sets { st with mem := loadMem st },
         (checkChildrenUpdates env item.children).tr⟩) := by
  unfold shouldUpdateF
  simp only [hlook, if_neg (by simpa using hpend), if_pos hts]
  simp

lemma shouldUpdateF_child_hash_hit (env : Env) (st : SyncSt) (pageId ts : String)
    (parents : List String) (item : PageCacheItem) (h : String) (d : PageObject)
    (hpar : parents ≠ [])
    (hpend : formatId pageId ∉ st.pending)
    (hfind : findChildInParentChain (loadMem st) (formatId pageId) parents = some item)
    (hts : item.last_edited_time ≠ ts)
    (hh : item.content_hash = some h)
    (hc : env.cached (parents.map formatId ++ [formatId pageId]) = some d)
    (hd : calculateContentHash env.digest d = h) :
    shouldUpdateF env st pageId ts parents
      = ⟨false, { st with mem := loadMem st }, [Ev.cacheRead pageId]⟩ := by
  unfold shouldUpdateF
  simp only [hfind, hh, hc, if_neg (by simpa using hpend), if_pos hpar, if_neg hts, if_pos hd]

lemma shouldUpdateF_top_hash_hit (env : Env) (st : SyncSt) (pageId ts : String)
    (item : PageCacheItem) (h : String) (d : PageObject)
    (hpend : formatId pageId ∉ st.pending)
    (hlook : lookupPage (loadMem st) (formatId pageId) = some item)
    (hts : item.last_edited_time ≠ ts)
    (hh : item.content_hash = some h)
    (hc : env.cached [formatId pageId] = some d)
    (hd : calculateContentHash env.digest d = h) :
    shouldUpdateF env st pageId ts [] =
      (if (checkChildrenUpdates env item.children).upd ≠ [] then
        ⟨false,
         { applyFlagSets (checkChildrenUpdates env item.children).sets { st with mem := loadMem st } with
             flags := aset (applyFlagSets (checkChildrenUpdates env item.children).sets
               { st with mem := loadMem st }).flags (formatId pageId)
               (checkChildrenUpdates env item.children).upd },
         Ev.cacheRead pageId :: (checkChildrenUpdates env item.children).tr⟩
      else
        ⟨false, applyFlagSets (checkChildrenUpdates env item.children).sets { st with mem := loadMem st },
         Ev.cacheRead pageId :: (checkChildrenUpdates env item.children).tr⟩) := by
  unfold shouldUpdateF
  simp only [hlook, hh, hc, if_neg (by simpa using hpend), if_neg hts, if_pos hd]
  simp

lemma processPageF_succ (n : Nat) (env : Env) (cfg : Cfg) (st : SyncSt)
    (pageId : String) (parents : List String) (isRoot : Bool) :
    processPageF (n + 1) env cfg st pageId parents isRoot =
      processStep (buildResourceMapF n env)
        (fun st' pid par rt => processPageF n env cfg st' pid par rt)
        env cfg st pageId parents isRoot := rfl

lemma processStep_cache_hit (buildRes : List (String × String) → String → PageObject → ROut)
    (go : GoFn) (env : Env) (cfg : Cfg) (st : SyncSt) (pageId ts : String)
    (parents : List String) (isRoot : Bool)
    (hmeta : env.meta pageId = .ok ts)
    (hcache : cfg.enableCache = true)
    (hneeds : (shouldUpdateF env st pageId ts parents).needs = false)
    (hflags : getUpdatedChildPages (shouldUpdateF env st pageId ts parents).st pageId = []) :
    processStep buildRes go env cfg st pageId parents isRoot =
      ⟨.ok (), (shouldUpdateF env st pageId ts parents).st,
       Ev.recurse pageId :: Ev.metaFetch pageId :: (shouldUpdateF env st pageId ts parents).tr⟩ := by
  unfold processStep
  simp only [hmeta, hcache, if_pos, hneeds, hflags]
  simp

lemma shouldUpdateF_hit_needs_false (env : Env) (st : SyncSt) (pageId ts : String)
    (parents : List String) (item : PageCacheItem)
    (hpend : formatId pageId ∉ st.pending)
    (hres : resolvedRecord (loadMem st) pageId parents = some item)
    (hts : item.last_edited_time = ts) :
    (shouldUpdateF env st pageId ts parents).needs = false
      ∧ ∀ e ∈ (shouldUpdateF env st pageId ts parents).tr, ∃ i, e = Ev.metaFetch i := by
  cases hp : parents with
  | nil =>
    subst hp
    unfold resolvedRecord at hres
    rw [shouldUpdateF_top_ts_hit env st pageId ts item hpend hres hts]
    by_cases hupd : (checkChildrenUpdates env item.children).upd ≠ []
    · rw [if_pos hupd]
      exact ⟨rfl, checkChildren_tr_meta env item.children⟩
    · rw [if_neg hupd]
      exact ⟨rfl, checkChildren_tr_meta env item.children⟩
  | cons p0 rest =>
    subst hp
    unfold resolvedRecord at hres
    rw [shouldUpdateF_child_ts_hit env st pageId ts (p0 :: rest) item (by simp) hpend hres hts]
    exact ⟨rfl, by intro e he; simp at he⟩

/-- C1 (amended): for a node whose remote last-modified time equals the time
stored in its resolved cache record and whose id is not in the PendingSet,
shouldUpdate returns false; and when the node additionally ends up with no
flagged descendant ids, processPage returns right after the metadata fetch
and the cache check: its whole trace consists of metadata fetches (and the
entry marker), so no full-content fetch, no file write, no cache-record
write and no download happens for that node. -/
theorem cache_hit_no_refetch_no_write
    (env : Env) (cfg : Cfg) (st : SyncSt) (n : Nat)
    (pageId ts : String) (parents : List String) (isRoot : Bool) (item : PageCacheItem)
    (hcache : cfg.enableCache = true)
    (hmeta : env.meta pageId = .ok ts)
    (hpend : formatId pageId ∉ st.pending)
    (hres : resolvedRecord (loadMem st) pageId parents = some item)
    (hts : item.last_edited_time = ts)
    (hflags : getUpdatedChildPages (shouldUpdateF env st pageId ts parents).st pageId = []) :
    (shouldUpdateF env st pageId ts parents).needs = false
    ∧ (processPageF (n + 1) env cfg st pageId parents isRoot).res = .ok ()
    ∧ ∀ e ∈ (processPageF (n + 1) env cfg st pageId parents isRoot).tr,
        (∃ i, e = Ev.metaFetch i) ∨ e = Ev.recurse pageId := by
  obtain ⟨hneeds, htr⟩ := shouldUpdateF_hit_needs_false env st pageId ts parents item hpend hres hts
  rw [processPageF_succ,
    processStep_cache_hit _ _ env cfg st pageId ts parents isRoot hmeta hcache hneeds hflags]
  refine ⟨hneeds, rfl, ?_⟩
  intro e he
  rcases List.mem_cons.mp he with h | h
  · exact Or.inr h
  · rcases List.mem_cons.mp h with h' | h'
    · exact Or.inl ⟨pageId, h'⟩
    · exact Or.inl (htr e h')

/-! ### C1 concrete states -/

def itemC1child : PageCacheItem := ⟨some "c-1", "s1", none, []⟩

def itemC1 : PageCacheItem := ⟨some "p-1", "t1", none, [itemC1child]⟩

def envC1 : Env :=
  { meta := fun i => if i = "p-1" then .ok "t1" else if i = "c-1" then .ok "s2" else .error "nf"
    full := fun i => if i = "p-1" then .ok ⟨"p-1", "T", none, none, "P", "t1", []⟩ else .error "nf"
    cached := fun _ => none
    saveOk := fun _ => true
    digest := fun _ => "H" }

def stC1 : SyncSt := ⟨some [("p-1", itemC1)], [], [], [], []⟩

def cfgC1 : Cfg := ⟨false, false, true⟩

/-- C1 counterexample: a top-level node whose remote timestamp equals the
cached one and whose id is not pending (so shouldUpdate returns false), but
which has a flagged child and an unreadable local snapshot: processPage
falls back to a full update and performs both the full-content fetch and
the file write for that node. -/
theorem cache_hit_refetches_counterexample :
    formatId "p-1" ∉ stC1.pending
    ∧ (resolvedRecord (loadMem stC1) "p-1" []).map PageCacheItem.last_edited_time = some "t1"
    ∧ envC1.meta "p-1" = .ok "t1"
    ∧ (shouldUpdateF envC1 stC1 "p-1" "t1" []).needs = false
    ∧ Ev.fullFetch "p-1" ∈ (processPageF 5 envC1 cfgC1 stC1 "p-1" [] true).tr
    ∧ Ev.savePage "p-1" true ∈ (processPageF 5 envC1 cfgC1 stC1 "p-1" [] true).tr := by
  refine ⟨by decide, by decide, rfl, by decide, by decide, by decide⟩

def envC1w : Env :=
  { meta := fun i => if i = "c-1" then .ok "s1" else .error "nf"
    full := fun _ => .error "nf"
    cached := fun _ => none
    saveOk := fun _ => true
    digest := fun _ => "H" }

def stC1w : SyncSt := ⟨some [("p-1", itemC1)], [], [], [], []⟩

/-- Witness for the amended C1 at a concrete unchanged child node. -/
theorem cache_hit_no_refetch_no_write_witness :
    ((resolvedRecord (loadMem stC1w) "c-1" ["p-1"]).map PageCacheItem.last_edited_time
        = some "s1")
    ∧ ((shouldUpdateF envC1w stC1w "c-1" "s1" ["p-1"]).needs = false
       ∧ (processPageF 3 envC1w cfgC1 stC1w "c-1" ["p-1"] false).res = .ok ()
       ∧ ∀ e ∈ (processPageF 3 envC1w cfgC1 stC1w "c-1" ["p-1"] false).tr,
           (∃ i, e = Ev.metaFetch i) ∨ e = Ev.recurse "c-1") :=
  ⟨by decide,
   cache_hit_no_refetch_no_write envC1w cfgC1 stC1w 2 "c-1" "s1" ["p-1"] false itemC1child
     rfl rfl (by decide) rfl rfl (by decide)⟩

lemma alookup_aset (m : List (String × α)) (k : String) (v : α) :
    alookup (aset m k v) k = some v := by
  induction m with
  | nil => simp [aset, alookup]
  | cons e rest ih =>
    by_cases hk : e.1 = k
    · simp [aset, alookup, hk]
    · simp only [aset, alookup, if_neg hk]
      exact ih

/-- C3 (amended): for a node whose remote timestamp differs from the cached
one but whose record stores a content hash, when the hash recomputed from
the locally cached snapshot equals the stored hash, shouldUpdate treats the
node as unchanged and returns false; for a top-level node it still performs
the step-3 children check (its trace is the cache read followed by the
children-check fetches and flagged descendants are recorded), while for a
non-root node it returns false immediately after the cache read, without
the children check. -/
theorem hash_match_top_level_children_check
    (env : Env) (st : SyncSt) (pageId ts : String) (parents : List String)
    (item : PageCacheItem) (h : String) (d : PageObject)
    (hpend : formatId pageId ∉ st.pending)
    (hres : resolvedRecord (loadMem st) pageId parents = some item)
    (hts : item.last_edited_time ≠ ts)
    (hh : item.content_hash = some h)
    (hc : env.cached (parents.map formatId ++ [formatId pageId]) = some d)
    (hd : calculateContentHash env.digest d = h) :
    (shouldUpdateF env st pageId ts parents).needs = false
    ∧ (parents = [] →
        (shouldUpdateF env st pageId ts parents).tr
            = Ev.cacheRead pageId :: (checkChildrenUpdates env item.children).tr
        ∧ ((checkChildrenUpdates env item.children).upd ≠ [] →
            getUpdatedChildPages (shouldUpdateF env st pageId ts parents).st pageId
              = (checkChildrenUpdates env item.children).upd))
    ∧ (parents ≠ [] →
        (shouldUpdateF env st pageId ts parents).tr = [Ev.cacheRead pageId]
        ∧ (shouldUpdateF env st pageId ts parents).st.flags = st.flags) := by
  cases hp : parents with
  | nil =>
    subst hp
    unfold resolvedRecord at hres
    simp only [List.map_nil, List.nil_append] at hc
    rw [shouldUpdateF_top_hash_hit env st pageId ts item h d hpend hres hts hh hc hd]
    by_cases hupd : (checkChildrenUpdates env item.children).upd ≠ []
    · rw [if_pos hupd]
      refine ⟨rfl, fun _ => ⟨rfl, fun _ => ?_⟩, fun hcon => absurd rfl hcon⟩
      unfold getUpdatedChildPages
      rw [alookup_aset]
      rfl
    · rw [if_neg hupd]
      exact ⟨rfl, fun _ => ⟨rfl, fun hcon => absurd hcon hupd⟩, fun hcon => absurd rfl hcon⟩
  | cons p0 rest =>
    subst hp
    unfold resolvedRecord at hres
    rw [shouldUpdateF_child_hash_hit env st pageId ts (p0 :: rest) item h d (by simp)
      hpend hres hts hh hc hd]
    exact ⟨rfl, fun hcon => by simp at hcon, fun _ => ⟨rfl, rfl⟩⟩

/-! ### C3 concrete states -/

def recC3d : PageCacheItem := ⟨some "d-1", "u1", none, []⟩

def recC3 : PageCacheItem := ⟨some "c-1", "s1", some "H1", [recC3d]⟩

def envC3 : Env :=
  { meta := fun i => if i = "d-1" then .ok "u2" else .error "nf"
    full := fun _ => .error "nf"
    cached := fun _ => some ⟨"c-1", "T", none, none, "P", "s1", []⟩
    saveOk := fun _ => true
    digest := fun _ => "H1" }

def stC3 : SyncSt :=
  ⟨some [("p-1", ⟨some "p-1", "t1", none, [recC3]⟩)], [], [], [], []⟩

/-- C3 counterexample: a non-root node whose timestamp changed but whose
stored hash matches the recomputed snapshot hash returns false with no
children check at all: no child metadata fetch happens and no descendant is
flagged, even though its cached child has a changed remote timestamp and
the step-3 check (run on the same record) would flag it. -/
theorem hash_match_children_check_counterexample :
    (shouldUpdateF envC3 stC3 "c-1" "s2" ["p-1"]).needs = false
    ∧ (checkChildrenUpdates envC3 recC3.children).upd = ["d-1"]
    ∧ (shouldUpdateF envC3 stC3 "c-1" "s2" ["p-1"]).tr = [Ev.cacheRead "c-1"]
    ∧ getUpdatedChildPages (shouldUpdateF envC3 stC3 "c-1" "s2" ["p-1"]).st "c-1" = [] := by
  refine ⟨by decide, by decide, by decide, by decide⟩

def envC3w : Env :=
  { meta := fun i => if i = "d-1" then .ok "u2" else .error "nf"
    full := fun _ => .error "nf"
    cached := fun _ => some ⟨"p-1", "T", none, none, "P", "t1", []⟩
    saveOk := fun _ => true
    digest := fun _ => "H2" }

def itemC3w : PageCacheItem := ⟨some "p-1", "t1", some "H2", [recC3d]⟩

def stC3w : SyncSt := ⟨some [("p-1", itemC3w)], [], [], [], []⟩

/-- Witness for the amended C3 at a concrete top-level node: the hash
matches, shouldUpdate returns false and the children check runs (the child
metadata fetch appears in the trace and the changed child is flagged). -/
theorem hash_match_top_level_children_check_witness :
    (itemC3w.last_edited_time ≠ "t2" ∧ itemC3w.content_hash = some "H2")
    ∧ ((shouldUpdateF envC3w stC3w "p-1" "t2" []).needs = false
       ∧ (shouldUpdateF envC3w stC3w "p-1" "t2" []).tr
           = Ev.cacheRead "p-1" :: (checkChildrenUpdates envC3w itemC3w.children).tr
       ∧ getUpdatedChildPages (shouldUpdateF envC3w stC3w "p-1" "t2" []).st "p-1" = ["d-1"]) := by
  have hmain := hash_match_top_level_children_check envC3w stC3w "p-1" "t2" [] itemC3w "H2"
    ⟨"p-1", "T", none, none, "P", "t1", []⟩ (by decide) rfl (by decide) rfl rfl rfl
  obtain ⟨h1, h2, _⟩ := hmain
  obtain ⟨h3, h4⟩ := h2 rfl
  refine ⟨⟨by decide, rfl⟩, h1, h3, ?_⟩
  rw [h4 (by decide)]
  decide

/-- C9 (amended): an unreadable or corrupt cache map is treated as absent
and never fatal: with the persisted map unreadable and the in-memory map at
its initial empty value, shouldUpdate resolves no record, returns true
(needs update) and marks the node pending, for root and non-root nodes
alike; and an error raised while checking an individual cached child is
caught locally and flags that child as needing update (it is not
propagated, and does not force shouldUpdate to return true for the node
itself). -/
theorem corrupt_cache_fail_open
    (env : Env) (st : SyncSt) (pageId ts : String) (parents : List String)
    (hdisk : st.disk = none) (hmem : st.mem = []) (hpend : st.pending = []) :
    ((shouldUpdateF env st pageId ts parents).needs = true
      ∧ (shouldUpdateF env st pageId ts parents).st.pending = [formatId pageId])
    ∧ ∀ (c : PageCacheItem) (cid a : String), c.id = some cid → env.meta cid = .error a →
        checkChildOne env c = ⟨[cid], [], [Ev.metaFetch cid]⟩ := by
  constructor
  · have hload : loadMem st = [] := by
      unfold loadMem
      rw [hdisk, hmem]
    unfold shouldUpdateF
    rw [hload]
    cases hp : parents with
    | nil =>
      simp only [lookupPage, hpend, addPending]
      constructor
      · simp
      · simp [List.not_mem_nil]
    | cons p0 rest =>
      simp only [findChildInParentChain, lookupPage, hpend, addPending]
      constructor
      · simp
      · simp [List.not_mem_nil]
  · intro c cid a hid herr
    cases c with
    | mk id le h ch =>
      simp only at hid
      subst hid
      simp [checkChildOne, herr]

/-! ### C9 concrete states -/

def envC9 : Env :=
  { meta := fun i => if i = "p-1" then .ok "t1" else .error "boom"
    full := fun _ => .error "nf"
    cached := fun _ => none
    saveOk := fun _ => true
    digest := fun _ => "H" }

def stC9 : SyncSt :=
  ⟨some [("p-1", ⟨some "p-1", "t1", none, [⟨some "c-1", "s1", none, []⟩]⟩)], [], [], [], []⟩

/-- C9 counterexample: an internal error is raised while shouldUpdate
checks the node (the metadata fetch of its cached child throws), it is
caught, and shouldUpdate returns false - not true - for the node, flagging
the child instead. -/
theorem shouldUpdate_error_returns_false_counterexample :
    envC9.meta "c-1" = .error "boom"
    ∧ (shouldUpdateF envC9 stC9 "p-1" "t1" []).needs = false
    ∧ getUpdatedChildPages (shouldUpdateF envC9 stC9 "p-1" "t1" []).st "p-1" = ["c-1"] := by
  refine ⟨rfl, by decide, by decide⟩

def stC9w : SyncSt := ⟨none, [], [], [], []⟩

/-- Witness for the amended C9: a fresh run over an unreadable cache map
returns true for a concrete node, and a concrete child-check error is
caught and flags the child. -/
theorem corrupt_cache_fail_open_witness :
    (stC9w.disk = none
      ∧ (shouldUpdateF envC9 stC9w "p-1" "t1" []).needs = true
      ∧ (shouldUpdateF envC9 stC9w "p-1" "t1" []).st.pending = ["p-1"])
    ∧ checkChildOne envC9 ⟨some "c-1", "s1", none, []⟩ = ⟨["c-1"], [], [Ev.metaFetch "c-1"]⟩ := by
  have hmain := corrupt_cache_fail_open envC9 stC9w "p-1" "t1" [] rfl rfl rfl
  exact ⟨⟨rfl, hmain.1.1, hmain.1.2⟩, hmain.2 ⟨some "c-1", "s1", none, []⟩ "c-1" "boom" rfl rfl⟩

/-- Events that are neither a page-file write, nor a cache-record persist,
nor a resource download. -/
def nonWriteEv : Ev → Prop
  | .savePage _ _ => False
  | .cacheSave _ => False
  | .download _ _ => False
  | _ => True

lemma shouldUpdateF_tr_shape (env : Env) (st : SyncSt) (pageId ts : String)
    (parents : List String) :
    (shouldUpdateF env st pageId ts parents).tr = []
    ∨ (shouldUpdateF env st pageId ts parents).tr = [Ev.cacheRead pageId]
    ∨ (∃ cs, (shouldUpdateF env st pageId ts parents).tr = (checkChildrenUpdates env cs).tr)
    ∨ (∃ cs, (shouldUpdateF env st pageId ts parents).tr
        = Ev.cacheRead pageId :: (checkChildrenUpdates env cs).tr) := by
  unfold shouldUpdateF
  dsimp only
  repeat' split
  all_goals first
    | (left; rfl)
    | (right; left; rfl)
    | (right; right; left; exact ⟨_, rfl⟩)
    | (right; right; right; exact ⟨_, rfl⟩)

lemma shouldUpdateF_tr_kinds (env : Env) (st : SyncSt) (pageId ts : String)
    (parents : List String) :
    ∀ e ∈ (shouldUpdateF env st pageId ts parents).tr, nonWriteEv e := by
  intro e he
  have hcc : ∀ (cs : List PageCacheItem),
      e ∈ (checkChildrenUpdates env cs).tr → nonWriteEv e := by
    intro cs hm
    obtain ⟨i, hi⟩ := checkChildren_tr_meta env cs e hm
    rw [hi]
    trivial
  rcases shouldUpdateF_tr_shape env st pageId ts parents with h | h | ⟨cs, h⟩ | ⟨cs, h⟩
  · rw [h] at he
    exact absurd he (List.not_mem_nil e)
  · rw [h] at he
    rw [List.mem_singleton.mp he]
    trivial
  · rw [h] at he
    exact hcc cs he
  · rw [h] at he
    rcases List.mem_cons.mp he with h' | h'
    · rw [h']
      trivial
    · exact hcc cs h'

lemma buildResLoop_tr (recurse : List (String × String) → String → PageObject → ROut)
    (hrec : ∀ rm q d, ∀ e ∈ (recurse rm q d).tr, ∃ i, e = Ev.fullFetch i)
    (env : Env) (rm : List (String × String)) (cps : List NotionBlock) :
    ∀ e ∈ (buildResLoop recurse env rm cps).tr, ∃ i, e = Ev.fullFetch i := by
  induction cps generalizing rm with
  | nil => intro e he; simp [buildResLoop] at he
  | cons cp rest ih =>
    intro e he
    unfold buildResLoop at he
    split at he
    · rcases List.mem_singleton.mp he with h
      exact ⟨cp.id, h⟩
    · dsimp only at he
      split at he
      · simp only [List.mem_cons] at he
        rcases he with h | h
        · exact ⟨cp.id, h⟩
        · exact hrec _ _ _ e h
      · simp only [List.mem_cons, List.mem_append] at he
        rcases he with h | h | h
        · exact ⟨cp.id, h⟩
        · exact hrec _ _ _ e h
        · exact ih _ e h

lemma buildRes_tr_full (n : Nat) (env : Env) (rm : List (String × String))
    (pageId : String) (d : PageObject) :
    ∀ e ∈ (buildResourceMapF n env rm pageId d).tr, ∃ i, e = Ev.fullFetch i := by
  induction n generalizing rm pageId d with
  | zero => intro e he; simp [buildResourceMapF] at he
  | succ n ih =>
    intro e he
    unfold buildResourceMapF at he
    exact buildResLoop_tr _ (fun rm' q d' => ih rm' q d') env _ _ e he

lemma updateCacheF_tr (env : Env) (s : SyncSt) (pid : String) (d : PageObject)
    (par : List String) : (updateCacheF env s pid d par).2 = [Ev.cacheSave pid] := rfl

/-- C6: on the FullUpdate path, if the Persistence Writer's save fails,
processPage throws and the node's pipeline ends at the failed write: the
whole trace before the failed save event is free of writes, so no
cache-record update and no resource download happened for the node; if the
save succeeds, the cache-record persist is the event immediately after the
successful page write, everything before the page write is free of writes,
and hence the node's resource downloads (write events) can only occur
after the cache update - persist, then cache record, then downloads, in
that order. -/
theorem persist_failure_aborts_cache_and_downloads
    (env : Env) (cfg : Cfg) (st st1 : SyncSt) (n : Nat) (pageId ts : String)
    (parents : List String) (isRoot : Bool) (fd : PageObject) (trS : List Ev)
    (hmeta : env.meta pageId = .ok ts)
    (hcache : cfg.enableCache = true)
    (hsu : shouldUpdateF env st pageId ts parents = ⟨true, st1, trS⟩)
    (hfull : env.full pageId = .ok fd)
    (hpre : cfg.includeImages = true → isRoot = true →
      (buildResourceMapF n env st1.resourceMap pageId fd).res = .ok ()) :
    (env.saveOk (pagePath parents pageId) = false →
      (processPageF (n + 1) env cfg st pageId parents isRoot).res = .error "save failed"
      ∧ ∃ t0, (processPageF (n + 1) env cfg st pageId parents isRoot).tr
            = t0 ++ [Ev.savePage pageId false]
          ∧ ∀ e ∈ t0, nonWriteEv e)
    ∧ (env.saveOk (pagePath parents pageId) = true →
      ∃ t0 t1,
        (processPageF (n + 1) env cfg st pageId parents isRoot).tr
            = t0 ++ Ev.savePage pageId true :: Ev.cacheSave pageId :: t1
          ∧ ∀ e ∈ t0, nonWriteEv e) := by
  have htrS : ∀ e ∈ trS, nonWriteEv e := by
    intro e he
    have := shouldUpdateF_tr_kinds env st pageId ts parents e
    rw [hsu] at this
    exact this he
  rw [processPageF_succ]
  unfold processStep
  rw [hmeta]
  simp only [hcache, hsu, if_true, Bool.true_eq_false, false_and, if_false]
  unfold fullPathF
  rw [hfull]
  dsimp only
  have hpreout :
      (if isRoot = true ∧ cfg.includeImages = true
        then buildResourceMapF n env st1.resourceMap pageId fd
        else ⟨.ok (), st1.resourceMap, []⟩ : ROut).res = .ok ()
      ∧ ∀ e ∈ (if isRoot = true ∧ cfg.includeImages = true
          then buildResourceMapF n env st1.resourceMap pageId fd
          else ⟨.ok (), st1.resourceMap, []⟩ : ROut).tr, nonWriteEv e := by
    by_cases hri : isRoot = true ∧ cfg.includeImages = true
    · rw [if_pos hri]
      refine ⟨hpre hri.2 hri.1, ?_⟩
      intro e he
      obtain ⟨i, hi⟩ := buildRes_tr_full n env st1.resourceMap pageId fd e he
      rw [hi]; trivial
    · rw [if_neg hri]
      exact ⟨rfl, by intro e he; simp at he⟩
  revert hpreout
  generalize (if isRoot = true ∧ cfg.includeImages = true
    then buildResourceMapF n env st1.resourceMap pageId fd
    else ⟨.ok (), st1.resourceMap, []⟩ : ROut) = pre
  intro hpreout
  obtain ⟨hpok, hptr⟩ := hpreout
  obtain ⟨pres, prm, ptr⟩ := pre
  simp only at hpok hptr
  subst hpok
  dsimp only
  have ht0 : ∀ e ∈ ([Ev.recurse pageId, Ev.metaFetch pageId] ++ trS ++ [Ev.fullFetch pageId]
      ++ ptr), nonWriteEv e := by
    intro e he
    simp only [List.mem_append, List.mem_cons, List.not_mem_nil, List.mem_singleton,
      or_false, false_or] at he
    rcases he with (((h | h) | h) | h) | h
    · rw [h]; trivial
    · rw [h]; trivial
    · exact htrS e h
    · rw [h]; trivial
    · exact hptr e h
  constructor
  · intro hsave
    rw [hsave]
    simp only [eq_self_iff_true, if_true]
    refine ⟨by trivial, [Ev.recurse pageId, Ev.metaFetch pageId] ++ trS ++ [Ev.fullFetch pageId]
      ++ ptr, ?_, ht0⟩
    simp [List.append_assoc]
  · intro hsave
    rw [hsave]
    have hsnd : ∀ (c : Prop) (inst : Decidable c) (x y : SyncSt × List Ev),
        (if c then x else y).2 = if c then x.2 else y.2 := by
      intro c inst x y
      split <;> rfl
    simp only [Bool.true_eq_false, if_false, hcache, if_true, hsnd, updateCacheF_tr]
    by_cases hrec : cfg.recursive = true
    · rw [if_pos hrec]
      exact ⟨[Ev.recurse pageId, Ev.metaFetch pageId] ++ trS ++ [Ev.fullFetch pageId] ++ ptr,
        _, by
          simp only [List.append_assoc, List.cons_append, List.singleton_append,
            List.nil_append]
          try rfl, ht0⟩
    · rw [if_neg hrec]
      exact ⟨[Ev.recurse pageId, Ev.metaFetch pageId] ++ trS ++ [Ev.fullFetch pageId] ++ ptr,
        _, by
          simp only [List.append_assoc, List.cons_append, List.singleton_append,
            List.nil_append]
          try rfl, ht0⟩

/-! ### C6 concrete states -/

def pageC6 : PageObject := ⟨"p-1", "T", none, none, "P", "t1", []⟩

def envC6 : Env :=
  { meta := fun i => if i = "p-1" then .ok "t1" else .error "nf"
    full := fun i => if i = "p-1" then .ok pageC6 else .error "nf"
    cached := fun _ => none
    saveOk := fun _ => false
    digest := fun _ => "H" }

def stC6 : SyncSt := ⟨some [], [], ["p-1"], [], []⟩

def cfgC6 : Cfg := ⟨true, true, true⟩

/-- Witness for C6 at a concrete pending node whose file write fails: the
pipeline errors out and everything in the trace before the failed save is a
non-write event. -/
theorem persist_failure_aborts_cache_and_downloads_witness :
    envC6.saveOk (pagePath [] "p-1") = false
    ∧ ((processPageF 2 envC6 cfgC6 stC6 "p-1" [] true).res = .error "save failed"
       ∧ ∃ t0, (processPageF 2 envC6 cfgC6 stC6 "p-1" [] true).tr
             = t0 ++ [Ev.savePage "p-1" false]
           ∧ ∀ e ∈ t0, nonWriteEv e) :=
  ⟨rfl,
   (persist_failure_aborts_cache_and_downloads envC6 cfgC6 stC6
     ⟨some [], [], ["p-1"], [], []⟩ 1 "p-1" "t1" [] true pageC6 []
     rfl rfl rfl rfl (fun _ _ => rfl)).1 rfl⟩

/-! ## Resource ownership lemmas -/

lemma alookup_aset_ne (m : List (String × α)) (k r : String) (v : α) (hne : k ≠ r) :
    alookup (aset m k v) r = alookup m r := by
  induction m with
  | nil => simp [aset, alookup, if_neg hne]
  | cons e rest ih =>
    by_cases hk : e.1 = k
    · simp only [aset, if_pos hk, alookup, if_neg hne, hk]
    · simp only [aset, if_neg hk, alookup]
      by_cases hr : e.1 = r
      · rw [if_pos hr, if_pos hr]
      · rw [if_neg hr, if_neg hr]
        exact ih

/-- Helper: the one-block ownership-recording step never changes an
existing ownership entry. -/
lemma extract_step_preserves (r o bid q : String) (burl : Option String) (btype : String)
    (ro : Bool) (rm : List (String × String)) (hrm : alookup rm r = some o) :
    alookup (if btype = "image" then
        match burl with
        | some u =>
          let rm1 := if (alookup rm bid).isSome = true then rm else aset rm bid q
          if ¬ ro = true ∧ alookup rm1 bid = some q then ([(bid, u)], rm1) else ([], rm1)
        | none => ([], rm)
      else ([], rm) : (List (String × String)) × List (String × String)).2 r = some o := by
  have haset : alookup rm bid = none → alookup (aset rm bid q) r = some o := by
    intro hnone
    by_cases hbid : bid = r
    · subst hbid
      rw [hrm] at hnone
      simp at hnone
    · rw [alookup_aset_ne rm bid r q hbid]
      exact hrm
  have hsnd2 : ∀ (c : Prop) (inst : Decidable c)
      (x y : (List (String × String)) × List (String × String)),
      (if c then x else y).2 = if c then x.2 else y.2 := by
    intro c inst x y
    split <;> rfl
  repeat' split
  all_goals simp only [hsnd2, ite_self]
  all_goals try exact hrm
  all_goals rename_i hn
  all_goals exact haset (by simpa using hn)

/-- The resource map only ever grows: extraction never changes an existing
ownership entry. -/
lemma extract_preserves (r o : String) :
    ∀ (blocks : List NotionBlock) (q : String) (ro : Bool) (rm : List (String × String)),
      alookup rm r = some o →
      alookup (extractImageUrlsF blocks q ro rm).2 r = some o := by
  refine extractImageUrlsF.induct
    (fun b q ro rm => alookup rm r = some o → alookup (extractImageOne b q ro rm).2 r = some o)
    (fun blocks q ro rm =>
      alookup rm r = some o → alookup (extractImageUrlsF blocks q ro rm).2 r = some o)
    ?_ ?_ ?_ ?_
  · intro bid hc le burl bch q ro rm hrm
    unfold extractImageOne
    simp only [if_pos rfl]
    exact hrm
  · intro bid btype hc le burl bch q ro rm hbt step ih hrm
    unfold extractImageOne
    dsimp only
    rw [if_neg hbt]
    exact ih (extract_step_preserves r o bid q burl btype ro rm hrm)
  · intro q ro rm hrm
    unfold extractImageUrlsF
    exact hrm
  · intro b rest q ro rm one ih1 ih2 hrm
    unfold extractImageUrlsF
    dsimp only
    exact ih2 (ih1 hrm)

/-- Helper: an image returned by the one-block step is owned by the
extracting page in the step's resulting map. -/
lemma extract_step_owned (bid q btype : String) (burl : Option String)
    (ro : Bool) (rm : List (String × String)) :
    ∀ p ∈ (if btype = "image" then
        match burl with
        | some u =>
          let rm1 := if (alookup rm bid).isSome = true then rm else aset rm bid q
          if ¬ ro = true ∧ alookup rm1 bid = some q then ([(bid, u)], rm1) else ([], rm1)
        | none => ([], rm)
      else ([], rm) : (List (String × String)) × List (String × String)).1,
      alookup (if btype = "image" then
        match burl with
        | some u =>
          let rm1 := if (alookup rm bid).isSome = true then rm else aset rm bid q
          if ¬ ro = true ∧ alookup rm1 bid = some q then ([(bid, u)], rm1) else ([], rm1)
        | none => ([], rm)
      else ([], rm) : (List (String × String)) × List (String × String)).2 p.1 = some q := by
  intro p hp
  by_cases himg : btype = "image"
  · rw [if_pos himg] at hp ⊢
    cases burl with
    | none => simp at hp
    | some u =>
      dsimp only at hp ⊢
      by_cases hcond : ¬ ro = true
        ∧ alookup (if (alookup rm bid).isSome = true then rm else aset rm bid q) bid = some q
      · rw [if_pos hcond] at hp ⊢
        rcases List.mem_singleton.mp hp with h
        rw [h]
        exact hcond.2
      · rw [if_neg hcond] at hp
        simp at hp
  · rw [if_neg himg] at hp
    simp at hp

/-- Every image the extraction step returns is owned, in the resulting
resource map, by the page the extraction ran for. -/
lemma extract_owned (q : String) :
    ∀ (blocks : List NotionBlock) (ro : Bool) (rm : List (String × String)),
      ∀ p ∈ (extractImageUrlsF blocks q ro rm).1,
      alookup (extractImageUrlsF blocks q ro rm).2 p.1 = some q := by
  have hind := extractImageUrlsF.induct
    (fun b pid ro rm => ∀ p ∈ (extractImageOne b pid ro rm).1,
      alookup (extractImageOne b pid ro rm).2 p.1 = some pid)
    (fun blocks pid ro rm => ∀ p ∈ (extractImageUrlsF blocks pid ro rm).1,
      alookup (extractImageUrlsF blocks pid ro rm).2 p.1 = some pid)
    ?_ ?_ ?_ ?_
  · intro blocks ro rm
    exact hind blocks q ro rm
  · intro bid hc le burl bch pid ro rm
    unfold extractImageOne
    simp only [if_pos rfl]
    intro p hp
    exact absurd hp (List.not_mem_nil p)
  · intro bid btype hc le burl bch pid ro rm hbt step ih
    unfold extractImageOne
    dsimp only
    rw [if_neg hbt]
    intro p hp
    rcases List.mem_append.mp hp with h | h
    · exact extract_preserves p.1 pid bch pid ro _
        (extract_step_owned bid pid btype burl ro rm p h)
    · exact ih p h
  · intro pid ro rm
    intro p hp
    unfold extractImageUrlsF at hp
    exact absurd hp (List.not_mem_nil p)
  · intro b rest pid ro rm one ih1 ih2
    unfold extractImageUrlsF
    dsimp only
    intro p hp
    rcases List.mem_append.mp hp with h | h
    · exact extract_preserves p.1 pid rest pid ro _ (ih1 p h)
    · exact ih2 p h

/-! ## Owner stability through the pipeline -/

/-- A recursive-call oracle preserves an ownership entry and downloads the
resource only for its owner. -/
def OwnerStable (r o : String) (go : GoFn) : Prop :=
  ∀ st pid par rt, alookup st.resourceMap r = some o →
    alookup (go st pid par rt).st.resourceMap r = some o
    ∧ ∀ q b, Ev.download q b ∈ (go st pid par rt).tr → b = r → q = o

lemma applyFlagSets_rm (sets : List (String × List String)) :
    ∀ st : SyncSt, (applyFlagSets sets st).resourceMap = st.resourceMap := by
  induction sets with
  | nil => intro st; rfl
  | cons s rest ih =>
    intro st
    rw [applyFlagSets, ih]

lemma shouldUpdateF_rm (env : Env) (st : SyncSt) (pageId ts : String)
    (parents : List String) :
    (shouldUpdateF env st pageId ts parents).st.resourceMap = st.resourceMap := by
  unfold shouldUpdateF
  dsimp only
  repeat' split
  all_goals simp [addPending, applyFlagSets_rm]

lemma shouldUpdateF_no_download (env : Env) (st : SyncSt) (pageId ts : String)
    (parents : List String) :
    ∀ q b, Ev.download q b ∈ (shouldUpdateF env st pageId ts parents).tr → False := by
  intro q b hmem
  have := shouldUpdateF_tr_kinds env st pageId ts parents _ hmem
  exact this

lemma runSeq_stable (r o : String) (go : GoFn) (hgo : OwnerStable r o go)
    (parents : List String) :
    ∀ (ids : List String) (st : SyncSt), alookup st.resourceMap r = some o →
      alookup (runSeq go parents st ids).st.resourceMap r = some o
      ∧ ∀ q b, Ev.download q b ∈ (runSeq go parents st ids).tr → b = r → q = o := by
  intro ids
  induction ids with
  | nil =>
    intro st hrm
    exact ⟨hrm, by intro q b hmem; simp [runSeq] at hmem⟩
  | cons pid rest ih =>
    intro st hrm
    unfold runSeq
    obtain ⟨h1, h2⟩ := hgo st pid parents false hrm
    dsimp only
    split
    · exact ⟨h1, fun q b hmem hb => h2 q b hmem hb⟩
    · obtain ⟨h3, h4⟩ := ih _ h1
      refine ⟨h3, ?_⟩
      intro q b hmem hb
      dsimp only at hmem
      rcases List.mem_append.mp hmem with h | h
      · exact h2 q b h hb
      · exact h4 q b h hb

lemma processUpdated_stable (r o : String) (go : GoFn) (hgo : OwnerStable r o go)
    (st : SyncSt) (pageId : String) (parents : List String) (updIds : List String)
    (hrm : alookup st.resourceMap r = some o) :
    alookup (processUpdatedChildPagesF go st pageId parents updIds).st.resourceMap r = some o
    ∧ ∀ q b, Ev.download q b ∈ (processUpdatedChildPagesF go st pageId parents updIds).tr →
        b = r → q = o := by
  unfold processUpdatedChildPagesF
  split
  · exact ⟨hrm, by intro q b hmem; simp at hmem⟩
  · exact runSeq_stable r o go hgo (parents ++ [pageId]) updIds st hrm

lemma fetchInfos_no_download (env : Env) (ids : List String) :
    ∀ q b, Ev.download q b ∈ (fetchInfos env ids).2 → False := by
  induction ids with
  | nil => intro q b hmem; simp [fetchInfos] at hmem
  | cons pid rest ih =>
    intro q b hmem
    unfold fetchInfos at hmem
    dsimp only at hmem
    split at hmem
    · rcases List.mem_cons.mp hmem with h | h
      · simp at h
      · exact ih q b h
    · rcases List.mem_cons.mp hmem with h | h
      · simp at h
      · exact ih q b h

lemma batchShould_stable (r o : String) (env : Env) (parents : List String) :
    ∀ (infos : List (String × String)) (st : SyncSt),
      alookup st.resourceMap r = some o →
      alookup (batchShouldUpdateF env parents st infos).2.1.resourceMap r = some o
      ∧ ∀ q b, Ev.download q b ∈ (batchShouldUpdateF env parents st infos).2.2 → False := by
  intro infos
  induction infos with
  | nil =>
    intro st hrm
    exact ⟨hrm, by intro q b hmem; simp [batchShouldUpdateF] at hmem⟩
  | cons info rest ih =>
    intro st hrm
    obtain ⟨i1, i2⟩ := info
    unfold batchShouldUpdateF
    dsimp only
    have hmid : alookup (shouldUpdateF env st i1 i2 parents).st.resourceMap r = some o := by
      rw [shouldUpdateF_rm]
      exact hrm
    obtain ⟨h1, h2⟩ := ih _ hmid
    refine ⟨h1, ?_⟩
    intro q b hmem
    rcases List.mem_append.mp hmem with h | h
    · exact shouldUpdateF_no_download env st i1 i2 parents q b h
    · exact h2 q b h

lemma batchProcess_stable (r o : String) (go : GoFn) (hgo : OwnerStable r o go)
    (env : Env) (cfg : Cfg) (st : SyncSt) (ids : List String) (parents : List String)
    (hrm : alookup st.resourceMap r = some o) :
    alookup (batchProcessPagesF go env cfg st ids parents).st.resourceMap r = some o
    ∧ ∀ q b, Ev.download q b ∈ (batchProcessPagesF go env cfg st ids parents).tr →
        b = r → q = o := by
  unfold batchProcessPagesF
  split
  · exact ⟨hrm, by intro q b hmem; simp at hmem⟩
  · dsimp only
    split
    · rename_i heq
      have hlm : alookup (SyncSt.mk st.disk (loadMem st) st.pending st.flags
          st.resourceMap).resourceMap r = some o := hrm
      obtain ⟨h1, h2⟩ := batchShould_stable r o env parents (fetchInfos env ids).1 _ hlm
      obtain ⟨h3, h4⟩ := runSeq_stable r o go hgo parents _ _ h1
      refine ⟨h3, ?_⟩
      intro q b hmem hb
      rcases List.mem_append.mp hmem with h | h
      · rcases List.mem_append.mp h with h' | h'
        · exact absurd h' (fun hc => fetchInfos_no_download env ids q b hc)
        · exact absurd h' (fun hc => h2 q b hc)
      · exact h4 q b h hb
    · obtain ⟨h3, h4⟩ := runSeq_stable r o go hgo parents ids st hrm
      refine ⟨h3, ?_⟩
      intro q b hmem hb
      rcases List.mem_append.mp hmem with h | h
      · rcases List.mem_append.mp h with h' | h'
        · exact absurd h' (fun hc => fetchInfos_no_download env ids q b hc)
        · simp at h'
      · exact h4 q b h hb

lemma nested_stable (r o : String) (go : GoFn) (hgo : OwnerStable r o go)
    (parentId : String) (ancestors : List String) :
    ∀ (st : SyncSt) (bs : List NotionBlock), alookup st.resourceMap r = some o →
      alookup (processNestedChildPagesF go parentId ancestors st bs).st.resourceMap r = some o
      ∧ ∀ q b, Ev.download q b ∈ (processNestedChildPagesF go parentId ancestors st bs).tr →
          b = r → q = o := by
  refine processNestedChildPagesF.induct go parentId ancestors
    (fun st blk => alookup st.resourceMap r = some o →
      alookup (processNestedOne go parentId ancestors st blk).st.resourceMap r = some o
      ∧ ∀ q b, Ev.download q b ∈ (processNestedOne go parentId ancestors st blk).tr →
          b = r → q = o)
    (fun st bs => alookup st.resourceMap r = some o →
      alookup (processNestedChildPagesF go parentId ancestors st bs).st.resourceMap r = some o
      ∧ ∀ q b, Ev.download q b ∈ (processNestedChildPagesF go parentId ancestors st bs).tr →
          b = r → q = o)
    ?_ ?_ ?_ ?_ ?_ ?_
  · intro st bid hc le url bch hrm
    unfold processNestedOne
    simp only [if_pos rfl]
    exact ⟨hrm, by intro q b hmem; simp at hmem⟩
  · intro st bid btype hc le url bch hbt nestedPages r1 e herr hrm
    unfold r1 nestedPages at herr
    unfold processNestedOne
    dsimp only
    rw [if_neg hbt]
    obtain ⟨hs1, hs2⟩ := runSeq_stable r o go hgo (ancestors ++ [parentId])
      ((bch.filter (fun c => isChildPage c)).map (fun c => c.id)) st hrm
    split
    · exact ⟨hs1, fun q b hmem hb => hs2 q b hmem hb⟩
    · rename_i a heq
      rw [heq] at herr
      simp at herr
  · intro st bid btype hc le url bch hbt nestedPages r1 a hok ih hrm
    unfold r1 nestedPages at hok
    unfold processNestedOne
    dsimp only
    rw [if_neg hbt]
    obtain ⟨hs1, hs2⟩ := runSeq_stable r o go hgo (ancestors ++ [parentId])
      ((bch.filter (fun c => isChildPage c)).map (fun c => c.id)) st hrm
    split
    · rename_i e heq
      rw [heq] at hok
      simp at hok
    · obtain ⟨h3, h4⟩ := ih hs1
      refine ⟨h3, ?_⟩
      intro q b hmem hb
      rcases List.mem_append.mp hmem with h | h
      · exact hs2 q b h hb
      · exact h4 q b h hb
  · intro st hrm
    exact ⟨hrm, by intro q b hmem; simp [processNestedChildPagesF] at hmem⟩
  · intro st b rest r1 e herr ih1 hrm
    unfold r1 at herr
    unfold processNestedChildPagesF
    dsimp only
    obtain ⟨h1, h2⟩ := ih1 hrm
    split
    · exact ⟨h1, fun q b' hmem hb => h2 q b' hmem hb⟩
    · rename_i a heq
      rw [heq] at herr
      simp at herr
  · intro st b rest r1 a hok ih1 ih2 hrm
    unfold r1 at hok ih2
    unfold processNestedChildPagesF
    dsimp only
    obtain ⟨h1, h2⟩ := ih1 hrm
    split
    · rename_i e heq
      rw [heq] at hok
      simp at hok
    · obtain ⟨h3, h4⟩ := ih2 h1
      refine ⟨h3, ?_⟩
      intro q b' hmem hb
      rcases List.mem_append.mp hmem with h | h
      · exact h2 q b' h hb
      · exact h4 q b' h hb

lemma childPages_stable (r o : String) (go : GoFn) (hgo : OwnerStable r o go)
    (env : Env) (cfg : Cfg) (st : SyncSt) (data : PageObject) (parentId : String)
    (parents : List String) (hrm : alookup st.resourceMap r = some o) :
    alookup (processChildPagesF go env cfg st data parentId parents).st.resourceMap r = some o
    ∧ ∀ q b, Ev.download q b ∈ (processChildPagesF go env cfg st data parentId parents).tr →
        b = r → q = o := by
  unfold processChildPagesF
  dsimp only
  split
  · exact nested_stable r o go hgo parentId parents st data.children hrm
  · obtain ⟨h1, h2⟩ := batchProcess_stable r o go hgo env cfg st
      (collectChildPages data.children) (parents ++ [parentId]) hrm
    split
    · exact ⟨h1, fun q b hmem hb => h2 q b hmem hb⟩
    · obtain ⟨h3, h4⟩ := nested_stable r o go hgo parentId parents _ data.children h1
      refine ⟨h3, ?_⟩
      intro q b hmem hb
      rcases List.mem_append.mp hmem with h | h
      · exact h2 q b h hb
      · exact h4 q b h hb

lemma buildResLoop_pres (r o : String)
    (recurse : List (String × String) → String → PageObject → ROut)
    (hrec : ∀ rm pid d, alookup rm r = some o → alookup (recurse rm pid d).rm r = some o)
    (env : Env) :
    ∀ (cps : List NotionBlock) (rm : List (String × String)),
      alookup rm r = some o → alookup (buildResLoop recurse env rm cps).rm r = some o := by
  intro cps
  induction cps with
  | nil => intro rm h; exact h
  | cons cp rest ih =>
    intro rm h
    unfold buildResLoop
    split
    · exact h
    · dsimp only
      split
      · exact hrec rm cp.id _ h
      · exact ih _ (hrec rm cp.id _ h)

lemma buildRes_pres (r o : String) :
    ∀ (n : Nat) (env : Env) (rm : List (String × String)) (pid : String) (d : PageObject),
      alookup rm r = some o → alookup (buildResourceMapF n env rm pid d).rm r = some o := by
  intro n
  induction n with
  | zero => intro env rm pid d h; exact h
  | succ n ih =>
    intro env rm pid d h
    unfold buildResourceMapF
    dsimp only
    exact buildResLoop_pres r o _ (fun rm' pid' d' h' => ih env rm' pid' d' h') env _ _
      (extract_preserves r o d.children pid true rm h)

lemma updateCacheF_rm (env : Env) (s : SyncSt) (pid : String) (d : PageObject)
    (par : List String) : (updateCacheF env s pid d par).1.resourceMap = s.resourceMap := rfl

lemma clearUpdated_rm (p : String) (s : SyncSt) :
    (clearUpdatedChildPages p s).resourceMap = s.resourceMap := rfl

lemma fullPath_stable (r o : String)
    (buildRes : List (String × String) → String → PageObject → ROut) (go : GoFn)
    (hbr : ∀ rm pid d, alookup rm r = some o → alookup (buildRes rm pid d).rm r = some o)
    (hbrtr : ∀ rm pid d e, e ∈ (buildRes rm pid d).tr → ∃ i, e = Ev.fullFetch i)
    (hgo : OwnerStable r o go)
    (env : Env) (cfg : Cfg) (st : SyncSt) (pageId : String) (parents : List String)
    (isRoot : Bool) (trPre : List Ev)
    (htrPre : ∀ q b, Ev.download q b ∈ trPre → b = r → q = o)
    (hrm : alookup st.resourceMap r = some o) :
    alookup (fullPathF buildRes go env cfg st pageId parents isRoot trPre).st.resourceMap r
      = some o
    ∧ ∀ q b, Ev.download q b ∈ (fullPathF buildRes go env cfg st pageId parents isRoot trPre).tr →
        b = r → q = o := by
  unfold fullPathF
  dsimp only
  split
  · refine ⟨hrm, ?_⟩
    intro q b hmem hb
    rcases List.mem_append.mp hmem with h | h
    · exact htrPre q b h hb
    · simp at h
  · rename_i fd hfull
    set pre := if isRoot = true ∧ cfg.includeImages = true then buildRes st.resourceMap pageId fd
      else ({ res := Except.ok (), rm := st.resourceMap, tr := [] } : ROut) with hpre
    have hpP : alookup pre.rm r = some o := by
      rw [hpre]
      split
      · exact hbr st.resourceMap pageId fd hrm
      · exact hrm
    have hpT : ∀ q b, Ev.download q b ∈ pre.tr → False := by
      intro q b hmem
      rw [hpre] at hmem
      split at hmem
      · obtain ⟨i, hi⟩ := hbrtr st.resourceMap pageId fd _ hmem
        simp at hi
      · simp at hmem
    split
    · refine ⟨hpP, ?_⟩
      intro q b hmem hb
      rcases List.mem_append.mp hmem with h | h
      · rcases List.mem_append.mp h with h2 | h2
        · exact htrPre q b h2 hb
        · simp at h2
      · exact absurd h (hpT q b)
    · split
      · refine ⟨hpP, ?_⟩
        intro q b hmem hb
        rcases List.mem_append.mp hmem with h | h
        · rcases List.mem_append.mp h with h2 | h2
          · rcases List.mem_append.mp h2 with h3 | h3
            · exact htrPre q b h3 hb
            · simp at h3
          · exact absurd h2 (hpT q b)
        · simp at h
      · set cs := if cfg.enableCache = true
          then updateCacheF env { st with resourceMap := pre.rm } pageId fd parents
          else ({ st with resourceMap := pre.rm }, ([] : List Ev)) with hcs
        have hcsP : alookup cs.1.resourceMap r = some o := by
          rw [hcs]
          split
          · rw [updateCacheF_rm]
            exact hpP
          · exact hpP
        have hcsT : ∀ q b, Ev.download q b ∈ cs.2 → False := by
          intro q b hmem
          rw [hcs] at hmem
          split at hmem
          · rw [updateCacheF_tr] at hmem
            simp at hmem
          · simp at hmem
        set dl := if cfg.includeImages = true
          then ({ cs.1 with
                  resourceMap := (extractImageUrlsF fd.children pageId false cs.1.resourceMap).2 },
                (extractImageUrlsF fd.children pageId false cs.1.resourceMap).1.map
                  (fun i => Ev.download pageId i.1))
          else (cs.1, ([] : List Ev)) with hdl
        have hdlP : alookup dl.1.resourceMap r = some o := by
          rw [hdl]
          split
          · exact extract_preserves r o fd.children pageId false _ hcsP
          · exact hcsP
        have hdlT : ∀ q b, Ev.download q b ∈ dl.2 → b = r → q = o := by
          intro q b hmem hb
          rw [hdl] at hmem
          split at hmem
          · rcases List.mem_map.mp hmem with ⟨i, hi, heq⟩
            injection heq with h1 h2
            have hov : alookup (extractImageUrlsF fd.children pageId false cs.1.resourceMap).2 i.1
                = some pageId :=
              extract_owned pageId fd.children false cs.1.resourceMap i hi
            have hpr : alookup (extractImageUrlsF fd.children pageId false cs.1.resourceMap).2 r
                = some o :=
              extract_preserves r o fd.children pageId false _ hcsP
            rw [h2, hb] at hov
            rw [hov] at hpr
            rw [← h1]
            exact Option.some.inj hpr
          · simp at hmem
        split
        · obtain ⟨hg1, hg2⟩ :=
            childPages_stable r o go hgo env cfg dl.1 fd pageId parents hdlP
          refine ⟨hg1, ?_⟩
          intro q b hmem hb
          rcases List.mem_append.mp hmem with h | h
          · rcases List.mem_append.mp h with h2 | h2
            · rcases List.mem_append.mp h2 with h3 | h3
              · rcases List.mem_append.mp h3 with h4 | h4
                · rcases List.mem_append.mp h4 with h5 | h5
                  · rcases List.mem_append.mp h5 with h6 | h6
                    · exact htrPre q b h6 hb
                    · simp at h6
                  · exact absurd h5 (hpT q b)
                · simp at h4
              · exact absurd h3 (hcsT q b)
            · exact hdlT q b h2 hb
          · exact hg2 q b h hb
        · refine ⟨hdlP, ?_⟩
          intro q b hmem hb
          rcases List.mem_append.mp hmem with h | h
          · rcases List.mem_append.mp h with h2 | h2
            · rcases List.mem_append.mp h2 with h3 | h3
              · rcases List.mem_append.mp h3 with h4 | h4
                · rcases List.mem_append.mp h4 with h5 | h5
                  · exact htrPre q b h5 hb
                  · simp at h5
                · exact absurd h4 (hpT q b)
              · simp at h3
            · exact absurd h2 (hcsT q b)
          · exact hdlT q b h hb

lemma processStep_stable (r o : String)
    (buildRes : List (String × String) → String → PageObject → ROut) (go : GoFn)
    (hbr : ∀ rm pid d, alookup rm r = some o → alookup (buildRes rm pid d).rm r = some o)
    (hbrtr : ∀ rm pid d e, e ∈ (buildRes rm pid d).tr → ∃ i, e = Ev.fullFetch i)
    (hgo : OwnerStable r o go)
    (env : Env) (cfg : Cfg) (st : SyncSt) (pageId : String) (parents : List String)
    (isRoot : Bool)
    (hrm : alookup st.resourceMap r = some o) :
    alookup (processStep buildRes go env cfg st pageId parents isRoot).st.resourceMap r = some o
    ∧ ∀ q b, Ev.download q b ∈ (processStep buildRes go env cfg st pageId parents isRoot).tr →
        b = r → q = o := by
  unfold processStep
  dsimp only
  split
  · exact ⟨hrm, by intro q b hmem hb; simp at hmem⟩
  · rename_i ts hmeta
    set su := if cfg.enableCache = true then shouldUpdateF env st pageId ts parents
      else ({ needs := true, st := st, tr := [] } : SUOut) with hsu
    have hsuP : alookup su.st.resourceMap r = some o := by
      rw [hsu]
      split
      · rw [shouldUpdateF_rm]
        exact hrm
      · exact hrm
    have hsuT : ∀ q b, Ev.download q b ∈ su.tr → False := by
      intro q b hmem
      rw [hsu] at hmem
      split at hmem
      · exact shouldUpdateF_no_download env st pageId ts parents q b hmem
      · simp at hmem
    have htr1 : ∀ q b, Ev.download q b ∈ ([Ev.recurse pageId, Ev.metaFetch pageId] ++ su.tr) →
        b = r → q = o := by
      intro q b hmem hb
      rcases List.mem_append.mp hmem with h | h
      · simp at h
      · exact absurd h (hsuT q b)
    split
    · split
      · exact ⟨hsuP, htr1⟩
      · split
        · split
          · obtain ⟨hp1, hp2⟩ := processUpdated_stable r o go hgo su.st pageId parents
              ([] : List String) hsuP
            split
            · refine ⟨by rw [clearUpdated_rm]; exact hp1, ?_⟩
              intro q b hmem hb
              rcases List.mem_append.mp hmem with h | h
              · exact htr1 q b h hb
              · rcases List.mem_cons.mp h with h2 | h2
                · simp at h2
                · rcases List.mem_cons.mp h2 with h3 | h3
                  · simp at h3
                  · exact hp2 q b h3 hb
            · refine ⟨hp1, ?_⟩
              intro q b hmem hb
              rcases List.mem_append.mp hmem with h | h
              · exact htr1 q b h hb
              · rcases List.mem_cons.mp h with h2 | h2
                · simp at h2
                · rcases List.mem_cons.mp h2 with h3 | h3
                  · simp at h3
                  · exact hp2 q b h3 hb
          · refine fullPath_stable r o buildRes go hbr hbrtr hgo env cfg su.st pageId parents
              isRoot _ ?_ hsuP
            intro q b hmem hb
            rcases List.mem_append.mp hmem with h | h
            · exact htr1 q b h hb
            · simp at h
        · exact fullPath_stable r o buildRes go hbr hbrtr hgo env cfg su.st pageId parents
            isRoot _ htr1 hsuP
    · split
      · exact ⟨hsuP, htr1⟩
      · split
        · split
          · obtain ⟨hp1, hp2⟩ := processUpdated_stable r o go hgo su.st pageId parents
              (getUpdatedChildPages su.st pageId) hsuP
            split
            · refine ⟨by rw [clearUpdated_rm]; exact hp1, ?_⟩
              intro q b hmem hb
              rcases List.mem_append.mp hmem with h | h
              · exact htr1 q b h hb
              · rcases List.mem_cons.mp h with h2 | h2
                · simp at h2
                · rcases List.mem_cons.mp h2 with h3 | h3
                  · simp at h3
                  · exact hp2 q b h3 hb
            · refine ⟨hp1, ?_⟩
              intro q b hmem hb
              rcases List.mem_append.mp hmem with h | h
              · exact htr1 q b h hb
              · rcases List.mem_cons.mp h with h2 | h2
                · simp at h2
                · rcases List.mem_cons.mp h2 with h3 | h3
                  · simp at h3
                  · exact hp2 q b h3 hb
          · refine fullPath_stable r o buildRes go hbr hbrtr hgo env cfg su.st pageId parents
              isRoot _ ?_ hsuP
            intro q b hmem hb
            rcases List.mem_append.mp hmem with h | h
            · exact htr1 q b h hb
            · simp at h
        · exact fullPath_stable r o buildRes go hbr hbrtr hgo env cfg su.st pageId parents
            isRoot _ htr1 hsuP

lemma processPageF_stable (r o : String) (env : Env) (cfg : Cfg) :
    ∀ n : Nat, OwnerStable r o (fun st pid par rt => processPageF n env cfg st pid par rt) := by
  intro n
  induction n with
  | zero =>
    intro st pid par rt hrm
    exact ⟨hrm, by intro q b hmem hb; simp [processPageF] at hmem⟩
  | succ n ih =>
    intro st pid par rt hrm
    exact processStep_stable r o (buildResourceMapF n env)
      (fun st2 pid2 par2 rt2 => processPageF n env cfg st2 pid2 par2 rt2)
      (fun rm pid2 d h => buildRes_pres r o n env rm pid2 d h)
      (fun rm pid2 d e he => buildRes_tr_full n env rm pid2 d e he)
      ih env cfg st pid par rt hrm

/-! ## First-owner characterization of the ownership pre-pass

Spec-modelled definitions (from the spec's words, for comparison with
buildResourceMap): the resource ids a page itself references outside nested
child pages, and the owner of a resource as the first page of the tree, in
pre-order, that references it. -/

mutual
/-- Spec-modelled: resource ids referenced by one block, excluding child-page
subtrees: image blocks carrying a url. -/
def ownResOne : NotionBlock → List String
  | ⟨bid, btype, _, _, burl, bch⟩ =>
    if btype = "child_page" then []
    else (if btype = "image" ∧ burl.isSome then [bid] else []) ++ ownResList bch
/-- Spec-modelled: resource ids referenced by a block forest, in order,
excluding child-page subtrees. -/
def ownResList : List NotionBlock → List String
  | [] => []
  | b :: rest => ownResOne b ++ ownResList rest
end

/-- Spec-modelled: the first child page of the list whose subtree owns the
resource, walking the direct child pages in order (the pre-pass aborts on a
child fetch error, so the walk stops there). -/
def firstOwnerLoop (recurse : String → PageObject → String → Option String) (env : Env) :
    List NotionBlock → String → Option String
  | [], _ => none
  | cp :: rest, r =>
    match env.full cp.id with
    | .error _ => none
    | .ok cd =>
      match recurse cp.id cd r with
      | some ow => some ow
      | none => firstOwnerLoop recurse env rest r

/-- Spec-modelled: the first page of the tree, visited in pre-order starting
at the given page, that references the resource outside child-page subtrees. -/
def firstOwnerF : Nat → Env → String → PageObject → String → Option String
  | 0, _, _, _, _ => none
  | n + 1, env, pid, data, r =>
    if r ∈ ownResList data.children then some pid
    else firstOwnerLoop (firstOwnerF n env) env (data.children.filter isChildPage) r

lemma extract_step_lookup (bid q btype : String) (burl : Option String)
    (ro : Bool) (rm : List (String × String)) (r : String) :
    alookup (if btype = "image" then
        match burl with
        | some u =>
          let rm1 := if (alookup rm bid).isSome = true then rm else aset rm bid q
          if ¬ ro = true ∧ alookup rm1 bid = some q then ([(bid, u)], rm1) else ([], rm1)
        | none => ([], rm)
      else ([], rm) : (List (String × String)) × List (String × String)).2 r
    = match alookup rm r with
      | some o => some o
      | none => if r ∈ (if btype = "image" ∧ burl.isSome = true then [bid] else [])
                then some q else none := by
  by_cases himg : btype = "image"
  · rw [if_pos himg]
    cases burl with
    | none =>
      cases h : alookup rm r <;> simp [himg, h]
    | some u =>
      dsimp only
      by_cases hs : (alookup rm bid).isSome = true
      · rw [if_pos hs]
        have hrm2 : alookup (if ¬ ro = true ∧ alookup rm bid = some q
            then (([(bid, u)], rm)
              : (List (String × String)) × List (String × String)) else ([], rm)).2 r
            = alookup rm r := by
          split <;> rfl
        rw [hrm2]
        cases h : alookup rm r with
        | some o => simp
        | none =>
          by_cases hbr : r = bid
          · rw [hbr] at h
            rw [h] at hs
            simp at hs
          · simp [himg, hbr]
      · rw [if_neg hs]
        have hrm2 : alookup (if ¬ ro = true ∧ alookup (aset rm bid q) bid = some q
            then (([(bid, u)], aset rm bid q)
              : (List (String × String)) × List (String × String))
            else ([], aset rm bid q)).2 r
            = alookup (aset rm bid q) r := by
          split <;> rfl
        rw [hrm2]
        by_cases hbr : r = bid
        · subst hbr
          rw [alookup_aset]
          have h : alookup rm r = none := by
            cases h : alookup rm r with
            | none => rfl
            | some o => rw [h] at hs; simp at hs
          simp [himg, h]
        · rw [alookup_aset_ne rm bid r q (fun hc => hbr hc.symm)]
          cases h : alookup rm r with
          | some o => simp
          | none => simp [himg, hbr]
  · rw [if_neg himg]
    cases h : alookup rm r <;> simp [himg, h]

lemma extract_record_lookup (r : String) :
    ∀ (blocks : List NotionBlock) (q : String) (ro : Bool) (rm : List (String × String)),
      alookup (extractImageUrlsF blocks q ro rm).2 r
      = match alookup rm r with
        | some o => some o
        | none => if r ∈ ownResList blocks then some q else none := by
  refine extractImageUrlsF.induct
    (fun b q ro rm => alookup (extractImageOne b q ro rm).2 r
      = match alookup rm r with
        | some o => some o
        | none => if r ∈ ownResOne b then some q else none)
    (fun blocks q ro rm => alookup (extractImageUrlsF blocks q ro rm).2 r
      = match alookup rm r with
        | some o => some o
        | none => if r ∈ ownResList blocks then some q else none)
    ?_ ?_ ?_ ?_
  · intro bid hc le burl bch q ro rm
    unfold extractImageOne
    simp only [if_pos rfl]
    have how : ownResOne ⟨bid, "child_page", hc, le, burl, bch⟩ = [] := by
      unfold ownResOne
      simp
    rw [how]
    cases h : alookup rm r <;> simp [h]
  · intro bid btype hc le burl bch q ro rm hbt step ih
    unfold extractImageOne
    dsimp only
    rw [if_neg hbt]
    have how : ownResOne ⟨bid, btype, hc, le, burl, bch⟩
        = (if btype = "image" ∧ burl.isSome = true then [bid] else []) ++ ownResList bch := by
      unfold ownResOne
      rw [if_neg hbt]
    rw [how]
    unfold step at ih
    rw [ih, extract_step_lookup bid q btype burl ro rm r]
    cases h : alookup rm r with
    | some o => simp
    | none =>
      by_cases hm : r ∈ (if btype = "image" ∧ burl.isSome = true then [bid] else [])
      · simp [hm, List.mem_append]
      · by_cases hm2 : r ∈ ownResList bch <;> simp [hm, hm2, List.mem_append]
  · intro q ro rm
    unfold extractImageUrlsF
    have how : ownResList ([] : List NotionBlock) = [] := rfl
    rw [how]
    cases h : alookup rm r <;> simp [h]
  · intro b rest q ro rm one ih1 ih2
    unfold extractImageUrlsF
    dsimp only
    unfold one at ih2
    rw [ih2, ih1]
    have how : ownResList (b :: rest) = ownResOne b ++ ownResList rest := rfl
    rw [how]
    cases h : alookup rm r with
    | some o => simp
    | none =>
      by_cases hm : r ∈ ownResOne b
      · simp [hm, List.mem_append]
      · by_cases hm2 : r ∈ ownResList rest <;> simp [hm, hm2, List.mem_append]

lemma buildResLoop_first_owner (r : String)
    (recurse : List (String × String) → String → PageObject → ROut)
    (fo : String → PageObject → String → Option String)
    (hrec : ∀ rm pid d, (recurse rm pid d).res = .ok () →
        alookup (recurse rm pid d).rm r
          = match alookup rm r with
            | some o => some o
            | none => fo pid d r)
    (env : Env) :
    ∀ (cps : List NotionBlock) (rm : List (String × String)),
      (buildResLoop recurse env rm cps).res = .ok () →
      alookup (buildResLoop recurse env rm cps).rm r
        = match alookup rm r with
          | some o => some o
          | none => firstOwnerLoop fo env cps r := by
  intro cps
  induction cps with
  | nil =>
    intro rm hok
    cases h : alookup rm r <;> simp [buildResLoop, firstOwnerLoop, h]
  | cons cp rest ih =>
    intro rm hok
    unfold buildResLoop at hok ⊢
    unfold firstOwnerLoop
    cases hfull : env.full cp.id with
    | error e =>
      rw [hfull] at hok
      simp at hok
    | ok cd =>
      rw [hfull] at hok
      dsimp only at hok ⊢
      cases hres : (recurse rm cp.id cd).res with
      | error e =>
        rw [hres] at hok
        simp at hok
      | ok a =>
        rw [hres] at hok
        dsimp only at hok ⊢
        have hrec2 := hrec rm cp.id cd (by rw [hres])
        rw [ih _ hok, hrec2]
        cases h : alookup rm r with
        | some o => simp
        | none =>
          cases hfo : fo cp.id cd r <;> simp [hfo]

lemma buildRes_first_owner (r : String) :
    ∀ (n : Nat) (env : Env) (rm : List (String × String)) (pid : String) (d : PageObject),
      (buildResourceMapF n env rm pid d).res = .ok () →
      alookup (buildResourceMapF n env rm pid d).rm r
        = match alookup rm r with
          | some o => some o
          | none => firstOwnerF n env pid d r := by
  intro n
  induction n with
  | zero =>
    intro env rm pid d hok
    simp [buildResourceMapF] at hok
  | succ n ih =>
    intro env rm pid d hok
    unfold buildResourceMapF at hok ⊢
    dsimp only at hok ⊢
    rw [buildResLoop_first_owner r (buildResourceMapF n env) (firstOwnerF n env)
      (fun rm2 pid2 d2 hok2 => ih env rm2 pid2 d2 hok2) env _ _ hok]
    rw [extract_record_lookup r d.children pid true rm]
    unfold firstOwnerF
    cases h : alookup rm r with
    | some o => simp
    | none =>
      by_cases hm : r ∈ ownResList d.children <;> simp [hm]

/-! ## C8: resource ownership -/

def downloadCount (r : String) (tr : List Ev) : Nat :=
  tr.countP (fun e => match e with | Ev.download _ b => b == r | _ => false)

/-- C8 (amended): after the root-level ownership pre-pass succeeds, the
ResourceOwnership map assigns a previously unrecorded resource id to the
first page of the tree visited in pre-order that references it; the
extraction step returns a recorded resource only for the page the map
records as its owner, excluding it for every other page; and in any
coordinator run started on a state whose resource map records the owner,
every download of the resource is performed by that owning page.  (The
original "downloaded exactly once per run" fails: when the owning page is a
cache hit on an incremental run, the resource is downloaded zero times.) -/
theorem resource_owned_by_first_preorder_page (env : Env) (cfg : Cfg) (r o : String) :
    (∀ n rm pid d, (buildResourceMapF n env rm pid d).res = .ok () →
        alookup rm r = none →
        alookup (buildResourceMapF n env rm pid d).rm r = firstOwnerF n env pid d r)
    ∧ (∀ blocks q rm u, alookup rm r = some o →
        ((r, u) ∈ (extractImageUrlsF blocks q false rm).1 → q = o))
    ∧ (∀ n st pid par rt, alookup st.resourceMap r = some o →
        ∀ q b, Ev.download q b ∈ (processPageF n env cfg st pid par rt).tr → b = r → q = o) := by
  refine ⟨?_, ?_, ?_⟩
  · intro n rm pid d hok hnone
    rw [buildRes_first_owner r n env rm pid d hok, hnone]
  · intro blocks q rm u hrm hmem
    have h1 := extract_owned q blocks false rm (r, u) hmem
    have h2 := extract_preserves r o blocks q false rm hrm
    dsimp only at h1
    rw [h2] at h1
    exact (Option.some.inj h1).symm
  · intro n st pid par rt hrm q b hmem hb
    exact (processPageF_stable r o env cfg n st pid par rt hrm).2 q b hmem hb

def pageWC8 : PageObject :=
  ⟨"w-1", "W", none, none, "P", "t1", [⟨"rw-1", "image", false, "t1", some "u", []⟩]⟩

def envWC8 : Env :=
  { meta := fun i => if i = "w-1" then .ok "t1" else .error "nf"
    full := fun i => if i = "w-1" then .ok pageWC8 else .error "nf"
    cached := fun _ => none
    saveOk := fun _ => true
    digest := fun _ => "H" }

def stWC8 : SyncSt := ⟨none, [], [], [], [("rw-1", "w-1")]⟩

def cfgWC8 : Cfg := ⟨false, true, false⟩

/-- Witness for C8 at a concrete one-page tree owning one image resource:
the pre-pass agrees with the spec-side first owner, extraction returns the
resource for the owner, and the only download of the resource in a full run
is by the owner. -/
theorem resource_owned_by_first_preorder_page_witness :
    ((buildResourceMapF 1 envWC8 [] "w-1" pageWC8).res = .ok ()
      ∧ alookup (buildResourceMapF 1 envWC8 [] "w-1" pageWC8).rm "rw-1"
          = firstOwnerF 1 envWC8 "w-1" pageWC8 "rw-1")
    ∧ (("rw-1", "u") ∈ (extractImageUrlsF pageWC8.children "w-1" false [("rw-1", "w-1")]).1
      ∧ "w-1" = "w-1")
    ∧ (Ev.download "w-1" "rw-1" ∈ (processPageF 2 envWC8 cfgWC8 stWC8 "w-1" [] true).tr
      ∧ "w-1" = "w-1") :=
  ⟨⟨rfl, (resource_owned_by_first_preorder_page envWC8 cfgWC8 "rw-1" "w-1").1 1 [] "w-1"
      pageWC8 rfl rfl⟩,
   ⟨by decide, (resource_owned_by_first_preorder_page envWC8 cfgWC8 "rw-1" "w-1").2.1
      pageWC8.children "w-1" [("rw-1", "w-1")] "u" rfl (by decide)⟩,
   ⟨by decide, (resource_owned_by_first_preorder_page envWC8 cfgWC8 "rw-1" "w-1").2.2
      2 stWC8 "w-1" [] true rfl "w-1" "rw-1" (by decide) rfl⟩⟩

def blkImgC8 : NotionBlock := ⟨"r-1", "image", false, "t1", some "u", []⟩

def pageC1dataC8 : PageObject := ⟨"c-1", "C1", none, none, "P", "t1", [blkImgC8]⟩

def pageC2dataC8 : PageObject := ⟨"c-2", "C2", none, none, "P", "t2", [blkImgC8]⟩

def pagePC8 : PageObject :=
  ⟨"p-1", "T", none, none, "P", "t2",
   [⟨"c-1", "child_page", false, "t1", none, []⟩,
    ⟨"c-2", "child_page", false, "t2", none, []⟩]⟩

def envC8 : Env :=
  { meta := fun i => if i = "p-1" then .ok "t2" else if i = "c-1" then .ok "t1"
      else if i = "c-2" then .ok "t2" else .error "nf"
    full := fun i => if i = "p-1" then .ok pagePC8 else if i = "c-1" then .ok pageC1dataC8
      else if i = "c-2" then .ok pageC2dataC8 else .error "nf"
    cached := fun _ => none
    saveOk := fun _ => true
    digest := fun _ => "H" }

def itemC1C8 : PageCacheItem := ⟨some "c-1", "t1", none, []⟩

def itemC2C8 : PageCacheItem := ⟨some "c-2", "t1", none, []⟩

def itemPC8 : PageCacheItem := ⟨some "p-1", "t1", none, [itemC1C8, itemC2C8]⟩

def stC8 : SyncSt := ⟨some [("p-1", itemPC8)], [], [], [], []⟩

def cfgC8 : Cfg := ⟨true, true, true⟩

/-- C8 counterexample: a resource referenced under two sibling branches of
the same tree, owned by the first branch in pre-order, is downloaded ZERO
times in a successful incremental run - the owning branch is a cache hit
and is never reprocessed, while the updated other branch excludes the
resource because it is not the owner.  "Downloaded exactly once per run" is
therefore false. -/
theorem resource_downloaded_zero_times_counterexample :
    ("r-1" ∈ ownResList pageC1dataC8.children ∧ "r-1" ∈ ownResList pageC2dataC8.children)
    ∧ alookup (buildResourceMapF 5 envC8 [] "p-1" pagePC8).rm "r-1" = some "c-1"
    ∧ (processPageF 6 envC8 cfgC8 stC8 "p-1" [] true).res = .ok ()
    ∧ downloadCount "r-1" (processPageF 6 envC8 cfgC8 stC8 "p-1" [] true).tr = 0 := by
  refine ⟨⟨by decide, by decide⟩, by decide, rfl, rfl⟩

/-! ## C2: partial-update scope -/

lemma alookup_adel (m : List (String × α)) (k : String) : alookup (adel m k) k = none := by
  induction m with
  | nil => rfl
  | cons e rest ih =>
    unfold adel at ih ⊢
    by_cases hk : e.1 = k
    · simp only [List.filter_cons, hk]
      simpa using ih
    · simp only [List.filter_cons]
      rw [if_pos (by simpa using hk)]
      unfold alookup
      rw [if_neg hk]
      exact ih

lemma processStep_partial (buildRes : List (String × String) → String → PageObject → ROut)
    (go : GoFn) (env : Env) (cfg : Cfg) (st : SyncSt) (pageId ts : String)
    (parents : List String) (isRoot : Bool) (snap : PageObject)
    (hmeta : env.meta pageId = .ok ts)
    (hcache : cfg.enableCache = true)
    (hneeds : (shouldUpdateF env st pageId ts parents).needs = false)
    (hflags : getUpdatedChildPages (shouldUpdateF env st pageId ts parents).st pageId ≠ [])
    (hsnap : env.cached (pagePath parents pageId) = some snap) :
    processStep buildRes go env cfg st pageId parents isRoot =
      (match (processUpdatedChildPagesF go (shouldUpdateF env st pageId ts parents).st pageId
          parents (getUpdatedChildPages (shouldUpdateF env st pageId ts parents).st pageId)).res
        with
      | .ok _ =>
        ⟨.ok (), clearUpdatedChildPages pageId
            (processUpdatedChildPagesF go (shouldUpdateF env st pageId ts parents).st pageId
              parents (getUpdatedChildPages (shouldUpdateF env st pageId ts parents).st pageId)).st,
          ([Ev.recurse pageId, Ev.metaFetch pageId] ++ (shouldUpdateF env st pageId ts parents).tr)
            ++ Ev.cacheRead pageId
              :: Ev.dispatchFlagged pageId
                  (getUpdatedChildPages (shouldUpdateF env st pageId ts parents).st pageId)
              :: (processUpdatedChildPagesF go (shouldUpdateF env st pageId ts parents).st pageId
                  parents
                  (getUpdatedChildPages (shouldUpdateF env st pageId ts parents).st pageId)).tr⟩
      | .error e =>
        ⟨.error e,
          (processUpdatedChildPagesF go (shouldUpdateF env st pageId ts parents).st pageId
            parents (getUpdatedChildPages (shouldUpdateF env st pageId ts parents).st pageId)).st,
          ([Ev.recurse pageId, Ev.metaFetch pageId] ++ (shouldUpdateF env st pageId ts parents).tr)
            ++ Ev.cacheRead pageId
              :: Ev.dispatchFlagged pageId
                  (getUpdatedChildPages (shouldUpdateF env st pageId ts parents).st pageId)
              :: (processUpdatedChildPagesF go (shouldUpdateF env st pageId ts parents).st pageId
                  parents
                  (getUpdatedChildPages (shouldUpdateF env st pageId ts parents).st pageId)).tr⟩) := by
  unfold processStep
  simp only [hmeta, hcache, if_pos, hneeds, hflags, hsnap]
  simp [hflags]

/-- C2 (amended): for a node whose own timestamp is unchanged (shouldUpdate
returns false) but whose UpdatedChildrenIndex flag list is nonempty, when
the locally cached snapshot is readable the coordinator runs the PartialUpdate
branch: its trace is exactly the entry marker, the metadata fetch, the change
check, the cache read, the dispatch of exactly the flagged descendant ids and
then the sequential recursive processing of exactly those ids under the
extended parent chain; every event the node contributes itself is a non-write
event (so the node's own file is not rewritten and the node's own cache record
is not persisted by this branch); and on success the final state is the
recursion's state with exactly the node's flag list cleared.  (When the cached
snapshot is unreadable the branch instead falls back to a full update that
rewrites the node's own file - see the counterexample.) -/
theorem partial_update_dispatches_flagged_only
    (env : Env) (cfg : Cfg) (st st1 : SyncSt) (n : Nat) (pageId ts : String)
    (parents : List String) (isRoot : Bool) (trS : List Ev) (upd : List String)
    (snap : PageObject)
    (hmeta : env.meta pageId = .ok ts)
    (hcache : cfg.enableCache = true)
    (hsu : shouldUpdateF env st pageId ts parents = ⟨false, st1, trS⟩)
    (hupd : getUpdatedChildPages st1 pageId = upd)
    (hne : upd ≠ [])
    (hsnap : env.cached (pagePath parents pageId) = some snap) :
    (processPageF (n + 1) env cfg st pageId parents isRoot).tr
      = [Ev.recurse pageId, Ev.metaFetch pageId] ++ trS
          ++ Ev.cacheRead pageId :: Ev.dispatchFlagged pageId upd
          :: (runSeq (fun s p par rt => processPageF n env cfg s p par rt)
                (parents ++ [pageId]) st1 upd).tr
    ∧ (∀ e ∈ [Ev.recurse pageId, Ev.metaFetch pageId] ++ trS
          ++ [Ev.cacheRead pageId, Ev.dispatchFlagged pageId upd], nonWriteEv e)
    ∧ ((runSeq (fun s p par rt => processPageF n env cfg s p par rt)
          (parents ++ [pageId]) st1 upd).res = .ok () →
        (processPageF (n + 1) env cfg st pageId parents isRoot).res = .ok ()
        ∧ (processPageF (n + 1) env cfg st pageId parents isRoot).st
            = clearUpdatedChildPages pageId
                (runSeq (fun s p par rt => processPageF n env cfg s p par rt)
                  (parents ++ [pageId]) st1 upd).st
        ∧ getUpdatedChildPages
            (processPageF (n + 1) env cfg st pageId parents isRoot).st pageId = []) := by
  have hneeds : (shouldUpdateF env st pageId ts parents).needs = false := by rw [hsu]
  have hflags : getUpdatedChildPages (shouldUpdateF env st pageId ts parents).st pageId ≠ [] := by
    rw [hsu]
    show getUpdatedChildPages st1 pageId ≠ []
    rw [hupd]
    exact hne
  have hclr : ∀ s : SyncSt, getUpdatedChildPages (clearUpdatedChildPages pageId s) pageId = [] := by
    intro s
    unfold getUpdatedChildPages clearUpdatedChildPages
    dsimp only
    rw [alookup_adel]
    rfl
  have htrS : ∀ e ∈ trS, nonWriteEv e := by
    have h := shouldUpdateF_tr_kinds env st pageId ts parents
    rw [hsu] at h
    exact h
  have hpu : processUpdatedChildPagesF
      (fun s p par rt => processPageF n env cfg s p par rt) st1 pageId parents upd
      = runSeq (fun s p par rt => processPageF n env cfg s p par rt)
          (parents ++ [pageId]) st1 upd := by
    unfold processUpdatedChildPagesF
    rw [if_neg hne]
  rw [processPageF_succ,
    processStep_partial (buildResourceMapF n env)
      (fun s p par rt => processPageF n env cfg s p par rt)
      env cfg st pageId ts parents isRoot snap hmeta hcache hneeds hflags hsnap,
    hsu]
  dsimp only
  rw [hupd, hpu]
  have hnw : ∀ e ∈ [Ev.recurse pageId, Ev.metaFetch pageId] ++ trS
      ++ [Ev.cacheRead pageId, Ev.dispatchFlagged pageId upd], nonWriteEv e := by
    intro e he
    rcases List.mem_append.mp he with h | h
    · rcases List.mem_append.mp h with h2 | h2
      · rcases List.mem_cons.mp h2 with h3 | h3
        · rw [h3]; trivial
        · rcases List.mem_cons.mp h3 with h4 | h4
          · rw [h4]; trivial
          · simp at h4
      · exact htrS e h2
    · rcases List.mem_cons.mp h with h3 | h3
      · rw [h3]; trivial
      · rcases List.mem_cons.mp h3 with h4 | h4
        · rw [h4]; trivial
        · simp at h4
  cases hres : (runSeq (fun s p par rt => processPageF n env cfg s p par rt)
      (parents ++ [pageId]) st1 upd).res with
  | error e =>
    refine ⟨by simp, hnw, ?_⟩
    intro hok
    simp at hok
  | ok a =>
    refine ⟨by simp, hnw, ?_⟩
    intro hok
    exact ⟨rfl, rfl, hclr _⟩

/-! ### C2 concrete states -/

def snapC2w : PageObject := ⟨"p-1", "T", none, none, "P", "t1", []⟩

def itemC2wChild : PageCacheItem := ⟨some "c-1", "s1", none, []⟩

def itemC2w : PageCacheItem := ⟨some "p-1", "t1", none, [itemC2wChild]⟩

def envC2w : Env :=
  { meta := fun i => if i = "p-1" then .ok "t1" else if i = "c-1" then .ok "s2" else .error "nf"
    full := fun i => if i = "c-1" then .ok ⟨"c-1", "C", none, none, "P", "s2", []⟩
      else .error "nf"
    cached := fun _ => some snapC2w
    saveOk := fun _ => true
    digest := fun _ => "H" }

def stC2w : SyncSt := ⟨some [("p-1", itemC2w)], [], [], [], []⟩

def cfgC2w : Cfg := ⟨false, false, true⟩

/-- Witness for the amended C2 at a concrete node with one flagged child and
a readable snapshot: the trace is exactly the partial-update shape and the
node's flag list ends up cleared. -/
theorem partial_update_dispatches_flagged_only_witness :
    (shouldUpdateF envC2w stC2w "p-1" "t1" []).needs = false
    ∧ getUpdatedChildPages (shouldUpdateF envC2w stC2w "p-1" "t1" []).st "p-1" = ["c-1"]
    ∧ (processPageF 3 envC2w cfgC2w stC2w "p-1" [] true).tr
        = [Ev.recurse "p-1", Ev.metaFetch "p-1"] ++ (shouldUpdateF envC2w stC2w "p-1" "t1" []).tr
            ++ Ev.cacheRead "p-1" :: Ev.dispatchFlagged "p-1" ["c-1"]
            :: (runSeq (fun s p par rt => processPageF 2 envC2w cfgC2w s p par rt)
                  ["p-1"] (shouldUpdateF envC2w stC2w "p-1" "t1" []).st ["c-1"]).tr
    ∧ getUpdatedChildPages (processPageF 3 envC2w cfgC2w stC2w "p-1" [] true).st "p-1" = [] :=
  ⟨by decide, by decide,
   (partial_update_dispatches_flagged_only envC2w cfgC2w stC2w
      (shouldUpdateF envC2w stC2w "p-1" "t1" []).st 2 "p-1" "t1" [] true
      (shouldUpdateF envC2w stC2w "p-1" "t1" []).tr ["c-1"] snapC2w
      rfl rfl rfl (by decide) (by decide) rfl).1,
   ((partial_update_dispatches_flagged_only envC2w cfgC2w stC2w
      (shouldUpdateF envC2w stC2w "p-1" "t1" []).st 2 "p-1" "t1" [] true
      (shouldUpdateF envC2w stC2w "p-1" "t1" []).tr ["c-1"] snapC2w
      rfl rfl rfl (by decide) (by decide) rfl).2.2 rfl).2.2⟩

def envC2x : Env :=
  { meta := fun i => if i = "p-1" then .ok "t1" else if i = "c-1" then .ok "s2" else .error "nf"
    full := fun i => if i = "p-1" then .ok ⟨"p-1", "T", none, none, "P", "t1", []⟩
      else .error "nf"
    cached := fun _ => none
    saveOk := fun _ => true
    digest := fun _ => "H" }

def stC2x : SyncSt := ⟨some [("p-1", itemC2w)], [], [], [], []⟩

/-- C2 counterexample: a node with unchanged timestamp and a nonempty flag
list whose locally cached snapshot is unreadable: instead of only recursing
into the flagged descendants, processPage falls back to a full update and
rewrites both the node's own persisted file and the node's own cache
record. -/
theorem partial_update_fallback_rewrites_node_counterexample :
    (shouldUpdateF envC2x stC2x "p-1" "t1" []).needs = false
    ∧ getUpdatedChildPages (shouldUpdateF envC2x stC2x "p-1" "t1" []).st "p-1" = ["c-1"]
    ∧ envC2x.cached (pagePath [] "p-1") = none
    ∧ Ev.savePage "p-1" true ∈ (processPageF 3 envC2x cfgC2w stC2x "p-1" [] true).tr
    ∧ Ev.cacheSave "p-1" ∈ (processPageF 3 envC2x cfgC2w stC2x "p-1" [] true).tr := by
  refine ⟨by decide, by decide, rfl, by decide, by decide⟩

end Notion2All
